import Mathlib

/-!
# microbit-ble gateway (`server.js`): a shallow embedding

The Node.js gateway keeps one record per micro:bit in the global object
`connectedDevices`, parses the UART text lines the devices send
(`processMessage`), writes command lines to them (`sendToMicrobit`) and
periodically disconnects silent devices (the `setInterval` sweep).

Modelling conventions.
* A JavaScript string is a list of characters (`Str`).  Lines reach the parser
  through `Buffer.toString()`, which only produces well-formed text, and every
  delimiter the code looks for is ASCII, so code-unit and character positions
  agree wherever the code indexes a string.  A transport write is recorded with
  the string that is handed to `Buffer.from`.
* A plain object used as a dictionary is an association list of its own
  properties.  The order of the list is a representation detail.
* `Date.now()` is an input of every handler that reads it.
* A handler that dereferences a missing record raises a `TypeError`; such a
  handler returns `none`.
* Logging is omitted: it has no effect on the registry or on the transport.
-/

namespace MicrobitBle

/-- A JavaScript string value. -/
abbrev Str := List Char

/-! ## String primitives used by `server.js` -/

/-- Characters removed by `String.prototype.trim`: ECMAScript WhiteSpace
(TAB, VT, FF, ZWNBSP and the Unicode space separators) and LineTerminator
(LF, CR, LS, PS). -/
def isWhiteSpace (c : Char) : Bool :=
  c.toNat == 0x09 || c.toNat == 0x0A || c.toNat == 0x0B || c.toNat == 0x0C ||
  c.toNat == 0x0D || c.toNat == 0x20 || c.toNat == 0xA0 || c.toNat == 0x1680 ||
  (0x2000 ≤ c.toNat && c.toNat ≤ 0x200A) || c.toNat == 0x2028 || c.toNat == 0x2029 ||
  c.toNat == 0x202F || c.toNat == 0x205F || c.toNat == 0x3000 || c.toNat == 0xFEFF

/-- Leading half of `trim`. -/
def trimStart (s : Str) : Str := s.dropWhile isWhiteSpace

/-- Trailing half of `trim`. -/
def trimEnd (s : Str) : Str := s.rdropWhile isWhiteSpace

/-- The method `s.trim()`. -/
def trim (s : Str) : Str := trimEnd (trimStart s)

/-- The method `s.startsWith(p)`. -/
def startsWith (s p : Str) : Bool := p.isPrefixOf s

/-- The method `s.endsWith(p)`. -/
def endsWith (s p : Str) : Bool := p.reverse.isPrefixOf s.reverse

/-- The method `s.substring(n)` with one argument: the text from index `n` on. -/
def substring (s : Str) (n : Nat) : Str := s.drop n

/-- The method `s.split(sep)` for a one-character separator: the maximal
separator-free pieces, in order; the empty string splits into one empty piece. -/
def split (sep : Char) : Str → List Str
  | [] => [[]]
  | c :: cs =>
    if c = sep then [] :: split sep cs
    else
      match split sep cs with
      | [] => [[c]]
      | p :: ps => (c :: p) :: ps

/-- The method `s.includes(sub)`. -/
def includes (s sub : Str) : Bool := s.tails.any (fun t => sub.isPrefixOf t)

/-! ## Plain objects used as dictionaries -/

/-- Own string-valued properties of a plain object created by `{}`. -/
abbrev Obj := List (Str × Str)

/-- Create or overwrite the own property `k`. -/
def upsert : Obj → Str → Str → Obj
  | [], k, v => [(k, v)]
  | (k0, v0) :: rest, k, v =>
    if k0 = k then (k0, v) :: rest else (k0, v0) :: upsert rest k v

/-- Read the own property `k`. -/
def Obj.get : Obj → Str → Option Str
  | [], _ => none
  | (k0, v0) :: rest, k => if k0 = k then some v0 else Obj.get rest k

/-- The assignment `obj[k] = v` with a string `v` on an object created by `{}`.
Such an object inherits the accessor property `__proto__` from
`Object.prototype`; an assignment to that key runs the accessor's setter,
which ignores every value that is neither an object nor `null`, so no own
property is created.  Every other key is created or overwritten. -/
def setProp (o : Obj) (k v : Str) : Obj :=
  if k = "__proto__".toList then o else upsert o k v

/-! ## Device records and the registry `connectedDevices` -/

/-- A GATT characteristic handle, identified by its UUID. -/
structure Characteristic where
  uuid : Str
deriving DecidableEq

/-- A noble peripheral: its transport id and `advertisement.localName`. -/
structure Peripheral where
  id : Str
  localName : Option Str
deriving DecidableEq

/-- The record stored in `connectedDevices` (`server.js` lines 79-89), with the
field `lastResponse` that `processMessage` adds later. -/
structure Device where
  peripheral : Peripheral
  name : Str
  id : Str
  connected : Bool
  writeChar : Option Characteristic
  notifyChar : Option Characteristic
  customId : Option Str
  lastSeen : Int
  data : Obj
  lastResponse : Option Str
deriving DecidableEq

/-- The global object `connectedDevices`: device id to record. -/
abbrev Registry := List (Str × Device)

/-- The lookup `connectedDevices[id]`; `none` is `undefined`. -/
def getDevice : Registry → Str → Option Device
  | [], _ => none
  | (k, d) :: rest, id => if k = id then some d else getDevice rest id

/-- Store the mutated record back under `id` (the code mutates in place). -/
def setDevice : Registry → Str → Device → Registry
  | [], _, _ => []
  | (k, d) :: rest, id, d1 =>
    if k = id then (k, d1) :: rest else (k, d) :: setDevice rest id d1

/-- The assignment `connectedDevices[id] = d` for an id that has no entry. -/
def addDevice (r : Registry) (id : Str) (d : Device) : Registry := r ++ [(id, d)]

/-- The statement `delete connectedDevices[id]`. -/
def deleteDevice : Registry → Str → Registry
  | [], _ => []
  | (k, d) :: rest, id =>
    if k = id then deleteDevice rest id else (k, d) :: deleteDevice rest id

/-- The array `Object.keys(connectedDevices)`. -/
def keys (r : Registry) : List Str := r.map Prod.fst

/-! ## `processMessage` (lines 199-235) -/

/-- The callback of `dataParts.forEach` (lines 217-228).
`const [key, value] = part.split(':')` binds the first two pieces of the split
on every colon; `value` is `undefined` when there is no colon.  The guard
`key && value` tests the untrimmed pieces for being non-empty. -/
def applyPart (device : Device) (part : Str) : Device :=
  match split ':' part with
  | key :: value :: _ =>
    if key ≠ [] ∧ value ≠ [] then
      if trim key = "id".toList then
        { device with customId := some (trim value) }
      else
        { device with data := setProp device.data (trim key) (trim value) }
    else device
  | _ => device

/-- The function `processMessage(deviceId, message)`, as a registry transformer. -/
def processMessage (connectedDevices : Registry) (deviceId message : Str) : Registry :=
  match getDevice connectedDevices deviceId with
  | none => connectedDevices
  | some device =>
    if startsWith message "CONNECTED:".toList then
      setDevice connectedDevices deviceId
        { device with customId := some (trim (substring message 10)) }
    else if startsWith message "DATA:".toList then
      let dataStr := trim (substring message 5)
      let dataParts := split ',' dataStr
      setDevice connectedDevices deviceId (dataParts.foldl applyPart device)
    else
      setDevice connectedDevices deviceId { device with lastResponse := some message }

/-! ## `sendToMicrobit` (lines 238-262) -/

/-- One call `characteristic.write(Buffer.from(payload), false, cb)`. -/
structure Write where
  characteristic : Characteristic
  payload : Str
deriving DecidableEq

/-- Outcome of `sendToMicrobit`: the returned boolean, the transport writes
issued, and the registry afterwards. -/
structure SendResult where
  ok : Bool
  writes : List Write
  devices : Registry
deriving DecidableEq

/-- The function `sendToMicrobit(deviceId, message)`. -/
def sendToMicrobit (connectedDevices : Registry) (deviceId message : Str) : SendResult :=
  match getDevice connectedDevices deviceId with
  | none => { ok := false, writes := [], devices := connectedDevices }
  | some device =>
    if !device.connected then { ok := false, writes := [], devices := connectedDevices }
    else
      match device.writeChar with
      | none => { ok := false, writes := [], devices := connectedDevices }
      | some writeChar =>
        let message := if !endsWith message "\n".toList then message ++ "\n".toList else message
        { ok := true, writes := [{ characteristic := writeChar, payload := message }],
          devices := connectedDevices }

/-! ## The inactivity sweep (lines 265-286) -/

/-- The body of the `setInterval` callback: for every key of the registry, a
record whose age exceeds 30000 ms and that is marked connected gets
`device.peripheral.disconnect()` called.  The result lists the device ids whose
peripheral received the call, in iteration order, with the registry afterwards. -/
def inactivitySweep (connectedDevices : Registry) (now : Int) : List Str × Registry :=
  ((keys connectedDevices).filterMap (fun deviceId =>
      match getDevice connectedDevices deviceId with
      | some device =>
        if now - device.lastSeen > 30000 then
          if device.connected then some deviceId else none
        else none
      | none => none),
   connectedDevices)

/-! ## Connection lifecycle handlers (lines 56-197) -/

/-- The constant `WRITE_CHARACTERISTIC_UUID`. -/
def WRITE_CHARACTERISTIC_UUID : Str := "6e400003b5a3f393e0a9e50e24dcca9e".toList

/-- The constant `NOTIFY_CHARACTERISTIC_UUID`. -/
def NOTIFY_CHARACTERISTIC_UUID : Str := "6e400002b5a3f393e0a9e50e24dcca9e".toList

/-- The function `connectToMicrobit` up to the creation of the record
(lines 69-89): nothing happens when an entry exists already. -/
def connectToMicrobit (connectedDevices : Registry) (peripheral : Peripheral) (now : Int) :
    Registry :=
  match getDevice connectedDevices peripheral.id with
  | some _ => connectedDevices
  | none =>
    addDevice connectedDevices peripheral.id
      { peripheral := peripheral,
        name := match peripheral.localName with
          | some (c :: cs) => c :: cs
          | _ => "Unknown micro:bit".toList,
        id := peripheral.id,
        connected := false,
        writeChar := none,
        notifyChar := none,
        customId := none,
        lastSeen := now,
        data := [],
        lastResponse := none }

/-- The noble `discover` handler (lines 57-67). -/
def onDiscover (connectedDevices : Registry) (peripheral : Peripheral) (now : Int) : Registry :=
  match peripheral.localName with
  | some (c :: cs) =>
    if includes (c :: cs) "BBC micro:bit".toList then
      connectToMicrobit connectedDevices peripheral now
    else connectedDevices
  | _ => connectedDevices

/-- The peripheral `connect` handler (lines 91-101).  The record is accessed
without a guard, so a missing record raises (`none`). -/
def onConnect (connectedDevices : Registry) (peripheral : Peripheral) (now : Int) :
    Option Registry :=
  match getDevice connectedDevices peripheral.id with
  | none => none
  | some device =>
    some (setDevice connectedDevices peripheral.id
      { device with connected := true, lastSeen := now })

/-- The peripheral `disconnect` handler (lines 103-118), up to scheduling the
grace timer. -/
def onDisconnect (connectedDevices : Registry) (peripheral : Peripheral) : Registry :=
  match getDevice connectedDevices peripheral.id with
  | some device => setDevice connectedDevices peripheral.id { device with connected := false }
  | none => connectedDevices

/-- The grace timer callback (lines 111-116). -/
def onGraceTimeout (connectedDevices : Registry) (peripheral : Peripheral) : Registry :=
  match getDevice connectedDevices peripheral.id with
  | some device =>
    if !device.connected then deleteDevice connectedDevices peripheral.id
    else connectedDevices
  | none => connectedDevices

/-- The callback of `peripheral.connect` when it reports an error (lines 121-126). -/
def onConnectError (connectedDevices : Registry) (peripheral : Peripheral) : Registry :=
  deleteDevice connectedDevices peripheral.id

/-- The callback of `characteristics.forEach` (lines 152-166).  Each assignment
goes through `connectedDevices[peripheral.id]` without a guard. -/
def bindCharacteristic (peripheral : Peripheral) (connectedDevices : Registry)
    (characteristic : Characteristic) : Option Registry :=
  let afterWrite : Option Registry :=
    if characteristic.uuid = WRITE_CHARACTERISTIC_UUID then
      match getDevice connectedDevices peripheral.id with
      | some device =>
        some (setDevice connectedDevices peripheral.id
          { device with writeChar := some characteristic })
      | none => none
    else some connectedDevices
  match afterWrite with
  | none => none
  | some r =>
    if characteristic.uuid = NOTIFY_CHARACTERISTIC_UUID then
      match getDevice r peripheral.id with
      | some device =>
        some (setDevice r peripheral.id { device with notifyChar := some characteristic })
      | none => none
    else some r

/-- The loop `characteristics.forEach(...)`. -/
def bindCharacteristics (peripheral : Peripheral) :
    Registry → List Characteristic → Option Registry
  | r, [] => some r
  | r, c :: cs =>
    match bindCharacteristic peripheral r c with
    | none => none
    | some r1 => bindCharacteristics peripheral r1 cs

/-- The callback of `discoverCharacteristics` (lines 146-167). -/
def onCharacteristics (connectedDevices : Registry) (peripheral : Peripheral) (error : Bool)
    (characteristics : List Characteristic) : Option Registry :=
  if error then some connectedDevices
  else bindCharacteristics peripheral connectedDevices characteristics

/-- The `data` handler installed by `subscribeToNotifications` (lines 172-188);
`raw` is `data.toString()`. -/
def onData (connectedDevices : Registry) (deviceId raw : Str) (now : Int) : Registry :=
  let message := trim raw
  let refreshed :=
    match getDevice connectedDevices deviceId with
    | some device => setDevice connectedDevices deviceId { device with lastSeen := now }
    | none => connectedDevices
  processMessage refreshed deviceId message

/-- The events that reach the registry. -/
inductive Event where
  | discover (peripheral : Peripheral)
  | connect (peripheral : Peripheral)
  | connectError (peripheral : Peripheral)
  | disconnect (peripheral : Peripheral)
  | graceTimeout (peripheral : Peripheral)
  | characteristics (peripheral : Peripheral) (error : Bool) (found : List Characteristic)
  | data (deviceId : Str) (raw : Str)
deriving DecidableEq

/-- Run the handler of one event; `now` is the clock reading `Date.now()` while
the handler runs.  The result is `none` when the handler raises. -/
def step (now : Int) (e : Event) (r : Registry) : Option Registry :=
  match e with
  | .discover p => some (onDiscover r p now)
  | .connect p => onConnect r p now
  | .connectError p => some (onConnectError r p)
  | .disconnect p => some (onDisconnect r p)
  | .graceTimeout p => some (onGraceTimeout r p)
  | .characteristics p error found => onCharacteristics r p error found
  | .data deviceId raw => some (onData r deviceId raw now)

/-- Run a sequence of events, each stamped with the clock reading at which it
is handled. -/
def run : Registry → List (Int × Event) → Option Registry
  | r, [] => some r
  | r, (now, e) :: rest =>
    match step now e r with
    | none => none
    | some r1 => run r1 rest

/-- A registry state the handlers can produce from the empty registry. -/
def Reachable (r : Registry) : Prop := ∃ evs, run [] evs = some r

/-! ## Sample values -/

/-- A sample peripheral. -/
def samplePeripheral : Peripheral := { id := "m1".toList, localName := some "BBC micro:bit".toList }

/-- A freshly created record as `connectToMicrobit` builds it. -/
def sampleDevice : Device :=
  { peripheral := samplePeripheral, name := "BBC micro:bit".toList, id := "m1".toList,
    connected := false, writeChar := none, notifyChar := none, customId := none,
    lastSeen := 0, data := [], lastResponse := none }

/-- A registry holding the sample record. -/
def sampleRegistry : Registry := [("m1".toList, sampleDevice)]

/-- The sample record once connected and with its write characteristic bound. -/
def readyDevice : Device :=
  { sampleDevice with connected := true, writeChar := some ⟨WRITE_CHARACTERISTIC_UUID⟩ }

/-- The sample record after a disconnect: the write characteristic is stale. -/
def staleDevice : Device :=
  { sampleDevice with connected := false, writeChar := some ⟨WRITE_CHARACTERISTIC_UUID⟩ }

/-! ## Auxiliary definitions used in the statements -/

/-- The disconnect decision the sweep takes for one record. -/
def sweepHit (now : Int) (e : Str × Device) : Option Str :=
  if now - e.2.lastSeen > 30000 then
    if e.2.connected then some e.1 else none
  else none

/-- A registry with a stale connected device, a stale disconnected device and
a connected device whose age is exactly the threshold. -/
def sweepRegistry : Registry :=
  [("m1".toList, { sampleDevice with connected := true, lastSeen := 9999 }),
   ("m2".toList, { sampleDevice with connected := false, lastSeen := 0 }),
   ("m3".toList, { sampleDevice with connected := true, lastSeen := 10000 })]

/-- Every record of `r1` either carries the `lastSeen` it has in `r` or was
stamped `now`. -/
def SeenStep (now : Int) (r r1 : Registry) : Prop :=
  ∀ id d1, getDevice r1 id = some d1 →
    (∃ d, getDevice r id = some d ∧ d1.lastSeen = d.lastSeen) ∨ d1.lastSeen = now

/-- A sample event stream: discovery, connect success and three inbound lines,
one for each branch of the parser. -/
def sampleEvents : List (Int × Event) :=
  [(100, Event.discover samplePeripheral),
   (250, Event.connect samplePeripheral),
   (900, Event.data "m1".toList "CONNECTED:deviceA\n".toList),
   (900, Event.data "m1".toList "DATA:temp:21,light:300\n".toList),
   (1700, Event.data "m1".toList "LED turned ON\n".toList)]

/-- The sample record after the first three events of `sampleEvents`. -/
def deviceBeforeData : Device :=
  { sampleDevice with connected := true, customId := some "deviceA".toList, lastSeen := 900 }

/-- The sample record after the first four events of `sampleEvents`. -/
def deviceAfterData : Device :=
  { deviceBeforeData with
    data := [("temp".toList, "21".toList), ("light".toList, "300".toList)] }

/-- The record of `deviceId` exists and both characteristic fields are set. -/
def BothBound (r : Registry) (deviceId : Str) : Prop :=
  ∃ d, getDevice r deviceId = some d ∧ d.writeChar.isSome = true ∧ d.notifyChar.isSome = true

/-- The events whose handler can delete the record of `deviceId`: a connect
failure and the expiry of the grace timer. -/
def removesRecord (deviceId : Str) : Event → Bool
  | .connectError p => p.id = deviceId
  | .graceTimeout p => p.id = deviceId
  | _ => false

/-- The registry right after discovery and connect success of the sample
peripheral: the record is connected and neither characteristic is bound. -/
def justConnected : Registry :=
  [("m1".toList, { sampleDevice with connected := true, lastSeen := 250 })]

/-- The sample registry once both characteristics are resolved. -/
def resolvedRegistry : Registry :=
  [("m1".toList,
    { sampleDevice with
      connected := true
      lastSeen := 250
      writeChar := some ⟨WRITE_CHARACTERISTIC_UUID⟩
      notifyChar := some ⟨NOTIFY_CHARACTERISTIC_UUID⟩ })]

/-- The sample registry after resolution and a disconnect: the characteristic
fields are still bound. -/
def resolvedThenDisconnected : Registry :=
  [("m1".toList,
    { sampleDevice with
      connected := false
      lastSeen := 250
      writeChar := some ⟨WRITE_CHARACTERISTIC_UUID⟩
      notifyChar := some ⟨NOTIFY_CHARACTERISTIC_UUID⟩ })]

/-- The text of a segment before its first colon (all of it when there is none). -/
def keyText (part : Str) : Str := part.takeWhile (fun c => c ≠ ':')

/-- The text of a segment after its first colon. -/
def afterColon (part : Str) : Str := (part.dropWhile (fun c => c ≠ ':')).drop 1

/-- The text of a segment between its first and its second colon (up to the
end when there is no second colon). -/
def valueText (part : Str) : Str := keyText (afterColon part)

/-- The segments the guard `key && value` rejects: no colon, or nothing before
the first colon, or nothing between the first and the second colon.  The test
is on the text as it stands, before any trimming. -/
def isDropped (part : Str) : Bool :=
  decide (':' ∉ part ∨ keyText part = [] ∨ valueText part = [])

/-- What the `forEach` callback does to a segment the guard accepts. -/
def storeSegment (device : Device) (part : Str) : Device :=
  if trim (keyText part) = "id".toList then
    { device with customId := some (trim (valueText part)) }
  else
    { device with
      data := setProp device.data (trim (keyText part)) (trim (valueText part)) }

/-- The text `k:v` of a key-value pair. -/
def render (kv : Str × Str) : Str := kv.1 ++ ':' :: kv.2

/-- Segments joined by commas. -/
def joinComma : List Str → Str
  | [] => []
  | [p] => p
  | p :: q :: ps => p ++ ',' :: joinComma (q :: ps)

/-- The payload `k1:v1,...,kn:vn` of a DATA line. -/
def payload (segs : List (Str × Str)) : Str := joinComma (segs.map render)

/-- A pair whose key and value are free of colons and commas and non-empty
after trimming. -/
def WellFormedPair (kv : Str × Str) : Prop :=
  ':' ∉ kv.1 ∧ ',' ∉ kv.1 ∧ ':' ∉ kv.2 ∧ ',' ∉ kv.2 ∧ trim kv.1 ≠ [] ∧ trim kv.2 ≠ []

/-- The update a well-formed pair stands for: the key `id` names the device,
every other key is assigned in the sensor data object. -/
def storePair (device : Device) (kv : Str × Str) : Device :=
  if trim kv.1 = "id".toList then
    { device with customId := some (trim kv.2) }
  else
    { device with data := setProp device.data (trim kv.1) (trim kv.2) }

/-! ## Registry lemmas -/

theorem getDevice_setDevice_same (r : Registry) (id : Str) (d d1 : Device)
    (h : getDevice r id = some d) : getDevice (setDevice r id d1) id = some d1 := by
  induction r with
  | nil => simp [getDevice] at h
  | cons e rest ih =>
    obtain ⟨k, d0⟩ := e
    by_cases hk : k = id
    · simp [getDevice, setDevice, hk]
    · simp only [getDevice, hk, if_false] at h
      simp [getDevice, setDevice, hk, ih h]

theorem getDevice_setDevice_other (r : Registry) (id id1 : Str) (d1 : Device)
    (hne : id1 ≠ id) : getDevice (setDevice r id d1) id1 = getDevice r id1 := by
  induction r with
  | nil => simp [getDevice, setDevice]
  | cons e rest ih =>
    obtain ⟨k, d0⟩ := e
    by_cases hk : k = id
    · subst hk
      have : ¬ k = id1 := fun h => hne h.symm
      simp [getDevice, setDevice, this]
    · by_cases hk1 : k = id1
      · subst hk1
        simp [getDevice, setDevice, hk]
      · simp [getDevice, setDevice, hk, hk1, ih]

theorem keys_setDevice (r : Registry) (id : Str) (d1 : Device) :
    keys (setDevice r id d1) = keys r := by
  induction r with
  | nil => rfl
  | cons e rest ih =>
    obtain ⟨k, d0⟩ := e
    by_cases hk : k = id
    · simp [keys, setDevice, hk]
    · simp only [keys] at ih
      simp [keys, setDevice, hk, ih]

theorem getDevice_of_mem (r : Registry) (hnd : (keys r).Nodup) (k : Str) (d : Device)
    (hmem : (k, d) ∈ r) : getDevice r k = some d := by
  induction r with
  | nil => simp at hmem
  | cons e rest ih =>
    obtain ⟨k0, d0⟩ := e
    simp only [keys, List.map_cons, List.nodup_cons] at hnd
    rcases List.mem_cons.mp hmem with h | h
    · cases h
      simp [getDevice]
    · have hk : ¬ k0 = k := by
        intro hk
        subst hk
        exact hnd.1 (List.mem_map.mpr ⟨(k0, d), h, rfl⟩)
      simp only [getDevice, hk, if_false]
      exact ih hnd.2 h

theorem getDevice_eq_none_of_not_mem (r : Registry) (id : Str) (h : id ∉ keys r) :
    getDevice r id = none := by
  induction r with
  | nil => rfl
  | cons e rest ih =>
    obtain ⟨k0, d0⟩ := e
    simp only [keys, List.map_cons, List.mem_cons, not_or] at h
    have hk : ¬ k0 = id := fun hk => h.1 hk.symm
    simp only [getDevice, hk, if_false]
    exact ih h.2

/-! ## Command dispatch -/

/-- The test on line 247, `message.endsWith('\n')`, holds exactly when the
message is some text followed by a newline. -/
theorem endsWith_newline_iff (message : Str) :
    endsWith message ['\n'] = true ↔ ∃ body : Str, message = body ++ ['\n'] := by
  constructor
  · intro he
    have hp : ['\n'].reverse <+: message.reverse := by
      simpa [endsWith] using he
    obtain ⟨t, ht⟩ := hp
    refine ⟨t.reverse, ?_⟩
    have := congrArg List.reverse ht
    simpa using this.symm
  · rintro ⟨body, rfl⟩
    simp [endsWith]

/-- C1: on a connected device with a bound write characteristic,
`sendToMicrobit` returns `true`, issues exactly one write on that
characteristic and returns the registry unchanged.  A message that already
ends with a newline, `body ++ "\n"`, is written as it is, with no second
newline; a message that does not end with a newline is written followed by
one newline; in both cases the payload ends with a newline. -/
theorem sendToMicrobit_connected (r : Registry) (deviceId message : Str) (device : Device)
    (wc : Characteristic) (hdev : getDevice r deviceId = some device)
    (hconn : device.connected = true) (hwc : device.writeChar = some wc) :
    (∀ body : Str, message = body ++ ['\n'] →
      sendToMicrobit r deviceId message =
        { ok := true,
          writes := [{ characteristic := wc, payload := body ++ ['\n'] }],
          devices := r }) ∧
    ((∀ body : Str, message ≠ body ++ ['\n']) →
      sendToMicrobit r deviceId message =
        { ok := true,
          writes := [{ characteristic := wc, payload := message ++ ['\n'] }],
          devices := r }) ∧
    (∃ body : Str,
      sendToMicrobit r deviceId message =
        { ok := true,
          writes := [{ characteristic := wc, payload := body ++ ['\n'] }],
          devices := r }) := by
  have hyes : ∀ body : Str, message = body ++ ['\n'] →
      sendToMicrobit r deviceId message =
        { ok := true,
          writes := [{ characteristic := wc, payload := body ++ ['\n'] }],
          devices := r } := by
    intro body hb
    have he : endsWith message ['\n'] = true := (endsWith_newline_iff message).mpr ⟨body, hb⟩
    rw [← hb]
    simp [sendToMicrobit, hdev, hconn, hwc, he]
  have hno : endsWith message ['\n'] = false →
      sendToMicrobit r deviceId message =
        { ok := true,
          writes := [{ characteristic := wc, payload := message ++ ['\n'] }],
          devices := r } := by
    intro he
    simp [sendToMicrobit, hdev, hconn, hwc, he]
  refine ⟨hyes, ?_, ?_⟩
  · intro hall
    apply hno
    cases he : endsWith message ['\n'] with
    | false => rfl
    | true =>
      obtain ⟨body, hb⟩ := (endsWith_newline_iff message).mp he
      exact absurd hb (hall body)
  · cases he : endsWith message ['\n'] with
    | false => exact ⟨message, hno he⟩
    | true =>
      obtain ⟨body, hb⟩ := (endsWith_newline_iff message).mp he
      exact ⟨body, hyes body hb⟩

/-- Witness for `sendToMicrobit_connected`: `LED_ON\n` is written as it is and
`LED_ON` is written as `LED_ON\n`, each exactly once. -/
theorem sendToMicrobit_connected_witness :
    sendToMicrobit [("m1".toList, readyDevice)] "m1".toList "LED_ON\n".toList =
      { ok := true,
        writes := [{ characteristic := ⟨WRITE_CHARACTERISTIC_UUID⟩,
                     payload := "LED_ON".toList ++ ['\n'] }],
        devices := [("m1".toList, readyDevice)] } ∧
    sendToMicrobit [("m1".toList, readyDevice)] "m1".toList "LED_ON".toList =
      { ok := true,
        writes := [{ characteristic := ⟨WRITE_CHARACTERISTIC_UUID⟩,
                     payload := "LED_ON".toList ++ ['\n'] }],
        devices := [("m1".toList, readyDevice)] } :=
  ⟨(sendToMicrobit_connected [("m1".toList, readyDevice)] "m1".toList "LED_ON\n".toList
      readyDevice ⟨WRITE_CHARACTERISTIC_UUID⟩ (by decide) rfl rfl).1 "LED_ON".toList rfl,
   (sendToMicrobit_connected [("m1".toList, readyDevice)] "m1".toList "LED_ON".toList
      readyDevice ⟨WRITE_CHARACTERISTIC_UUID⟩ (by decide) rfl rfl).2.1
      (fun body hb => by
        have h1 := congrArg List.getLast? hb
        simp at h1)⟩

/-- C2: when the device is absent, or not connected, or has no write
characteristic, `sendToMicrobit` returns `false`, issues no write and returns
the registry unchanged. -/
theorem sendToMicrobit_rejected (r : Registry) (deviceId message : Str)
    (h : getDevice r deviceId = none ∨
         ∃ device, getDevice r deviceId = some device ∧
           (device.connected = false ∨ device.writeChar = none)) :
    sendToMicrobit r deviceId message = { ok := false, writes := [], devices := r } := by
  rcases h with h | ⟨device, hdev, h | h⟩
  · simp [sendToMicrobit, h]
  · simp [sendToMicrobit, hdev, h]
  · cases hc : device.connected <;> simp [sendToMicrobit, hdev, h, hc]

/-- Witness for `sendToMicrobit_rejected`: a disconnected device that still
holds a stale write characteristic is not written to. -/
theorem sendToMicrobit_rejected_witness :
    sendToMicrobit [("m1".toList, staleDevice)] "m1".toList "LED_ON".toList =
      { ok := false, writes := [], devices := [("m1".toList, staleDevice)] } :=
  sendToMicrobit_rejected [("m1".toList, staleDevice)] "m1".toList "LED_ON".toList
    (Or.inr ⟨staleDevice, by decide, Or.inl rfl⟩)

/-! ## The parser: `CONNECTED:` lines and free text -/

/-- C6: a line `CONNECTED:<rest>` on an existing device sets `customId` to
`<rest>` trimmed and changes no other field of the record (sensor data, last
response, connection flag and both characteristics stay as they were), no other
record and no key of the registry. -/
theorem processMessage_connected_line (r : Registry) (deviceId rest : Str) (device : Device)
    (hdev : getDevice r deviceId = some device) :
    getDevice (processMessage r deviceId ("CONNECTED:".toList ++ rest)) deviceId =
        some { device with customId := some (trim rest) } ∧
    (∀ other, other ≠ deviceId →
        getDevice (processMessage r deviceId ("CONNECTED:".toList ++ rest)) other =
          getDevice r other) ∧
    keys (processMessage r deviceId ("CONNECTED:".toList ++ rest)) = keys r := by
  have hp : processMessage r deviceId ("CONNECTED:".toList ++ rest) =
      setDevice r deviceId { device with customId := some (trim rest) } := by
    simp [processMessage, hdev, startsWith, substring]
  rw [hp]
  exact ⟨getDevice_setDevice_same r deviceId device _ hdev,
    fun other hne => getDevice_setDevice_other r deviceId other _ hne,
    keys_setDevice r deviceId _⟩

/-- Witness for `processMessage_connected_line`: `CONNECTED:deviceA`. -/
theorem processMessage_connected_line_witness :
    getDevice (processMessage sampleRegistry "m1".toList "CONNECTED:deviceA".toList)
        "m1".toList =
      some { sampleDevice with customId := some "deviceA".toList } :=
  (processMessage_connected_line sampleRegistry "m1".toList "deviceA".toList sampleDevice
    (by decide)).1

/-- C7: a line that starts with neither `CONNECTED:` nor `DATA:` is stored
verbatim in `lastResponse` of an existing device; every other field of the
record, every other record and the keys of the registry are unchanged. -/
theorem processMessage_other_line (r : Registry) (deviceId message : Str) (device : Device)
    (hdev : getDevice r deviceId = some device)
    (hc : startsWith message "CONNECTED:".toList = false)
    (hd : startsWith message "DATA:".toList = false) :
    getDevice (processMessage r deviceId message) deviceId =
        some { device with lastResponse := some message } ∧
    (∀ other, other ≠ deviceId →
        getDevice (processMessage r deviceId message) other = getDevice r other) ∧
    keys (processMessage r deviceId message) = keys r := by
  have hp : processMessage r deviceId message =
      setDevice r deviceId { device with lastResponse := some message } := by
    simp only [processMessage, hdev, hc, hd, Bool.false_eq_true, if_false]
  rw [hp]
  exact ⟨getDevice_setDevice_same r deviceId device _ hdev,
    fun other hne => getDevice_setDevice_other r deviceId other _ hne,
    keys_setDevice r deviceId _⟩

/-- Witness for `processMessage_other_line`: `hello world`. -/
theorem processMessage_other_line_witness :
    getDevice (processMessage sampleRegistry "m1".toList "hello world".toList) "m1".toList =
      some { sampleDevice with lastResponse := some "hello world".toList } :=
  (processMessage_other_line sampleRegistry "m1".toList "hello world".toList sampleDevice
    (by decide) (by decide) (by decide)).1

/-! ## The inactivity sweep -/

theorem inactivitySweep_eq_entries (r : Registry) (now : Int) (hnd : (keys r).Nodup) :
    (inactivitySweep r now).1 = r.filterMap (sweepHit now) := by
  have h : ∀ l : Registry, (∀ e ∈ l, e ∈ r) →
      (keys l).filterMap (fun deviceId =>
        match getDevice r deviceId with
        | some device =>
          if now - device.lastSeen > 30000 then
            if device.connected then some deviceId else none
          else none
        | none => none) = l.filterMap (sweepHit now) := by
    intro l
    induction l with
    | nil => intro _; rfl
    | cons e rest ih =>
      intro hsub
      obtain ⟨k, d⟩ := e
      have hk : getDevice r k = some d := getDevice_of_mem r hnd k d (hsub _ (List.mem_cons_self _ _))
      have ih1 := ih (fun e he => hsub e (List.mem_cons_of_mem _ he))
      simp only [keys, List.map_cons, List.filterMap_cons] at ih1 ⊢
      rw [hk, ih1]
      simp only [sweepHit]
  exact h r (fun e he => he)

theorem count_sweepHit (now : Int) (id : Str) (l : Registry) (hnd : (keys l).Nodup) :
    (l.filterMap (sweepHit now)).count id =
      match getDevice l id with
      | some d => if d.connected = true ∧ now - d.lastSeen > 30000 then 1 else 0
      | none => 0 := by
  induction l with
  | nil => rfl
  | cons e rest ih =>
    obtain ⟨k, d⟩ := e
    simp only [keys, List.map_cons, List.nodup_cons] at hnd
    have ih1 := ih hnd.2
    by_cases hk : k = id
    · subst hk
      have hnone : getDevice rest k = none := getDevice_eq_none_of_not_mem rest k hnd.1
      rw [hnone] at ih1
      simp only [getDevice, if_true]
      by_cases h1 : now - d.lastSeen > 30000 <;> cases h2 : d.connected <;>
        simp [List.filterMap_cons, sweepHit, h1, h2, ih1]
    · simp only [getDevice, hk, if_false]
      rw [← ih1]
      by_cases h1 : now - d.lastSeen > 30000 <;> cases h2 : d.connected <;>
        simp [List.filterMap_cons, sweepHit, h1, h2, List.count_cons, hk]

/-- C8: one run of the inactivity sweep calls `disconnect()` exactly once on a
device that is connected and whose age `now - lastSeen` exceeds 30000, and not
at all on a device that is not connected or whose age is at most 30000 (an age
of exactly 30000 included); the sweep returns the registry unchanged. -/
theorem inactivitySweep_requests (r : Registry) (now : Int) (hnd : (keys r).Nodup) :
    (inactivitySweep r now).2 = r ∧
    ∀ deviceId device, getDevice r deviceId = some device →
      (device.connected = true → now - device.lastSeen > 30000 →
        ((inactivitySweep r now).1).count deviceId = 1) ∧
      (device.connected = false ∨ now - device.lastSeen ≤ 30000 →
        ((inactivitySweep r now).1).count deviceId = 0) := by
  refine ⟨rfl, ?_⟩
  intro deviceId device hdev
  rw [inactivitySweep_eq_entries r now hnd, count_sweepHit now deviceId r hnd, hdev]
  constructor
  · intro hc ha
    simp [hc, ha]
  · intro h
    rcases h with h | h
    · simp [h]
    · have : ¬ now - device.lastSeen > 30000 := not_lt.mpr h
      simp [this]

/-- Witness for `inactivitySweep_requests`: at time 40000 only `m1` is asked
to disconnect. -/
theorem inactivitySweep_requests_witness :
    inactivitySweep sweepRegistry 40000 = (["m1".toList], sweepRegistry) ∧
    ((inactivitySweep sweepRegistry 40000).2 = sweepRegistry ∧
     ∀ deviceId device, getDevice sweepRegistry deviceId = some device →
      (device.connected = true → 40000 - device.lastSeen > 30000 →
        ((inactivitySweep sweepRegistry 40000).1).count deviceId = 1) ∧
      (device.connected = false ∨ 40000 - device.lastSeen ≤ 30000 →
        ((inactivitySweep sweepRegistry 40000).1).count deviceId = 0)) :=
  ⟨by decide, inactivitySweep_requests sweepRegistry 40000 (by decide)⟩

/-! ## More registry lemmas -/

theorem setDevice_of_getDevice_none (r : Registry) (id : Str) (d1 : Device)
    (h : getDevice r id = none) : setDevice r id d1 = r := by
  induction r with
  | nil => rfl
  | cons e rest ih =>
    obtain ⟨k, d0⟩ := e
    by_cases hk : k = id
    · simp [getDevice, hk] at h
    · simp only [getDevice, hk, if_false] at h
      simp [setDevice, hk, ih h]

theorem getDevice_addDevice (r : Registry) (id id1 : Str) (d : Device) :
    getDevice (addDevice r id d) id1 =
      match getDevice r id1 with
      | some d0 => some d0
      | none => if id = id1 then some d else none := by
  induction r with
  | nil => simp [addDevice, getDevice]
  | cons e rest ih =>
    obtain ⟨k, d0⟩ := e
    by_cases hk : k = id1
    · simp [addDevice, getDevice, hk]
    · simp only [addDevice] at ih
      simp [addDevice, getDevice, hk, ih]

theorem getDevice_deleteDevice_same (r : Registry) (id : Str) :
    getDevice (deleteDevice r id) id = none := by
  induction r with
  | nil => rfl
  | cons e rest ih =>
    obtain ⟨k, d0⟩ := e
    by_cases hk : k = id
    · simp [deleteDevice, hk, ih]
    · simp [deleteDevice, hk, getDevice, ih]

theorem getDevice_deleteDevice_other (r : Registry) (id id1 : Str) (hne : id1 ≠ id) :
    getDevice (deleteDevice r id) id1 = getDevice r id1 := by
  induction r with
  | nil => rfl
  | cons e rest ih =>
    obtain ⟨k, d0⟩ := e
    by_cases hk : k = id
    · subst hk
      have : ¬ k = id1 := fun h => hne h.symm
      simp [deleteDevice, getDevice, this, ih]
    · by_cases hk1 : k = id1
      · subst hk1
        simp [deleteDevice, hk, getDevice]
      · simp [deleteDevice, hk, getDevice, hk1, ih]

theorem getDevice_setDevice (r : Registry) (id id1 : Str) (d1 : Device) :
    getDevice (setDevice r id d1) id1 =
      if id1 = id then (getDevice r id).map (fun _ => d1) else getDevice r id1 := by
  by_cases h : id1 = id
  · subst h
    cases hg : getDevice r id1 with
    | none => simp [setDevice_of_getDevice_none r id1 d1 hg, hg]
    | some d => simp [getDevice_setDevice_same r id1 d d1 hg]
  · simp [h, getDevice_setDevice_other r id id1 d1 h]

/-! ## `lastSeen` along the event stream -/

theorem seenStep_refl (now : Int) (r : Registry) : SeenStep now r r :=
  fun _ d1 h => Or.inl ⟨d1, h, rfl⟩

theorem seenStep_setDevice (now : Int) (r : Registry) (id : Str) (d d1 : Device)
    (hd : getDevice r id = some d) (hs : d1.lastSeen = d.lastSeen ∨ d1.lastSeen = now) :
    SeenStep now r (setDevice r id d1) := by
  intro id1 d2 h2
  rw [getDevice_setDevice] at h2
  by_cases h : id1 = id
  · subst h
    simp only [if_true, hd, Option.map_some', Option.some.injEq] at h2
    subst h2
    rcases hs with hs | hs
    · exact Or.inl ⟨d, hd, hs⟩
    · exact Or.inr hs
  · simp only [h, if_false] at h2
    exact Or.inl ⟨d2, h2, rfl⟩

theorem seenStep_deleteDevice (now : Int) (r : Registry) (id : Str) :
    SeenStep now r (deleteDevice r id) := by
  intro id1 d2 h2
  by_cases h : id1 = id
  · subst h
    rw [getDevice_deleteDevice_same] at h2
    cases h2
  · rw [getDevice_deleteDevice_other r id id1 h] at h2
    exact Or.inl ⟨d2, h2, rfl⟩

theorem seenStep_addDevice (now : Int) (r : Registry) (id : Str) (d : Device)
    (hs : d.lastSeen = now) : SeenStep now r (addDevice r id d) := by
  intro id1 d2 h2
  rw [getDevice_addDevice] at h2
  cases hg : getDevice r id1 with
  | some d0 =>
    simp only [hg, Option.some.injEq] at h2
    subst h2
    exact Or.inl ⟨d0, rfl, rfl⟩
  | none =>
    simp only [hg] at h2
    by_cases h : id = id1
    · simp only [h, if_true, Option.some.injEq] at h2
      subst h2
      exact Or.inr hs
    · simp [h] at h2

theorem applyPart_frame (device : Device) (part : Str) :
    (applyPart device part).lastSeen = device.lastSeen ∧
    (applyPart device part).connected = device.connected ∧
    (applyPart device part).writeChar = device.writeChar ∧
    (applyPart device part).notifyChar = device.notifyChar ∧
    (applyPart device part).lastResponse = device.lastResponse := by
  unfold applyPart
  split
  · split
    · split <;> simp
    · simp
  · simp

theorem foldl_applyPart_frame (parts : List Str) (device : Device) :
    (parts.foldl applyPart device).lastSeen = device.lastSeen ∧
    (parts.foldl applyPart device).connected = device.connected ∧
    (parts.foldl applyPart device).writeChar = device.writeChar ∧
    (parts.foldl applyPart device).notifyChar = device.notifyChar ∧
    (parts.foldl applyPart device).lastResponse = device.lastResponse := by
  induction parts generalizing device with
  | nil => simp
  | cons p ps ih =>
    obtain ⟨h1, h2, h3, h4, h5⟩ := applyPart_frame device p
    obtain ⟨i1, i2, i3, i4, i5⟩ := ih (applyPart device p)
    simp only [List.foldl_cons]
    exact ⟨i1.trans h1, i2.trans h2, i3.trans h3, i4.trans h4, i5.trans h5⟩

/-- What `processMessage` does to an existing record, whichever branch runs:
the record is replaced by one with the same `lastSeen`, connection flag and
characteristics. -/
theorem processMessage_frame (r : Registry) (deviceId message : Str) (device : Device)
    (hdev : getDevice r deviceId = some device) :
    ∃ d1, processMessage r deviceId message = setDevice r deviceId d1 ∧
      d1.lastSeen = device.lastSeen ∧ d1.connected = device.connected ∧
      d1.writeChar = device.writeChar ∧ d1.notifyChar = device.notifyChar := by
  simp only [processMessage, hdev]
  split
  · exact ⟨_, rfl, rfl, rfl, rfl, rfl⟩
  · split
    · obtain ⟨h1, h2, h3, h4, _⟩ :=
        foldl_applyPart_frame (split ',' (trim (substring message 5))) device
      exact ⟨_, rfl, h1, h2, h3, h4⟩
    · exact ⟨_, rfl, rfl, rfl, rfl, rfl⟩

theorem processMessage_of_none (r : Registry) (deviceId message : Str)
    (hdev : getDevice r deviceId = none) : processMessage r deviceId message = r := by
  simp [processMessage, hdev]

theorem setDevice_self (r : Registry) (id : Str) (d : Device)
    (h : getDevice r id = some d) : setDevice r id d = r := by
  induction r with
  | nil => rfl
  | cons e rest ih =>
    obtain ⟨k, d0⟩ := e
    by_cases hk : k = id
    · simp only [getDevice, hk, if_true, Option.some.injEq] at h
      simp [setDevice, hk, h]
    · simp only [getDevice, hk, if_false] at h
      simp [setDevice, hk, ih h]

theorem setDevice_setDevice (r : Registry) (id : Str) (a b : Device) :
    setDevice (setDevice r id a) id b = setDevice r id b := by
  induction r with
  | nil => rfl
  | cons e rest ih =>
    obtain ⟨k, d0⟩ := e
    by_cases hk : k = id
    · simp [setDevice, hk]
    · simp [setDevice, hk, ih]

/-- The effect of one `forEach` round on an existing record. -/
theorem bindCharacteristic_of_some (p : Peripheral) (r : Registry) (c : Characteristic)
    (d : Device) (hd : getDevice r p.id = some d) :
    bindCharacteristic p r c =
      some (setDevice r p.id
        { d with
          writeChar := if c.uuid = WRITE_CHARACTERISTIC_UUID then some c else d.writeChar,
          notifyChar := if c.uuid = NOTIFY_CHARACTERISTIC_UUID then some c else d.notifyChar }) := by
  unfold bindCharacteristic
  by_cases hw : c.uuid = WRITE_CHARACTERISTIC_UUID <;>
    by_cases hn : c.uuid = NOTIFY_CHARACTERISTIC_UUID
  · simp only [if_pos hw, if_pos hn, hd, getDevice_setDevice_same r p.id d _ hd,
      setDevice_setDevice]
  · simp only [if_pos hw, if_neg hn, hd]
  · simp only [if_neg hw, if_pos hn, hd]
  · simp only [if_neg hw, if_neg hn, hd, setDevice_self r p.id d hd]

theorem bindCharacteristic_of_none (p : Peripheral) (r r1 : Registry) (c : Characteristic)
    (hd : getDevice r p.id = none) (h : bindCharacteristic p r c = some r1) : r1 = r := by
  unfold bindCharacteristic at h
  by_cases hw : c.uuid = WRITE_CHARACTERISTIC_UUID <;>
    by_cases hn : c.uuid = NOTIFY_CHARACTERISTIC_UUID
  · simp only [if_pos hw, hd] at h
    cases h
  · simp only [if_pos hw, hd] at h
    cases h
  · simp only [if_neg hw, if_pos hn, hd] at h
    cases h
  · simp only [if_neg hw, if_neg hn, Option.some.injEq] at h
    exact h.symm

/-- The effect of the whole `forEach` loop on an existing record: the loop
completes, only the two characteristic fields of that record change, a field
that was bound stays bound, and a field whose UUID occurs in the list is bound. -/
theorem bindCharacteristics_of_some (p : Peripheral) (found : List Characteristic)
    (r : Registry) (d : Device) (hd : getDevice r p.id = some d) :
    ∃ w n, bindCharacteristics p r found =
        some (setDevice r p.id { d with writeChar := w, notifyChar := n }) ∧
      ((d.writeChar.isSome = true ∨ ∃ c ∈ found, c.uuid = WRITE_CHARACTERISTIC_UUID) →
        w.isSome = true) ∧
      ((d.notifyChar.isSome = true ∨ ∃ c ∈ found, c.uuid = NOTIFY_CHARACTERISTIC_UUID) →
        n.isSome = true) := by
  induction found generalizing r d with
  | nil =>
    refine ⟨d.writeChar, d.notifyChar, ?_, ?_, ?_⟩
    · simp [bindCharacteristics, setDevice_self r p.id d hd]
    · rintro (h | ⟨c, hc, _⟩)
      · exact h
      · simp at hc
    · rintro (h | ⟨c, hc, _⟩)
      · exact h
      · simp at hc
  | cons c cs ih =>
    have h1 := bindCharacteristic_of_some p r c d hd
    have hd1 := getDevice_setDevice_same r p.id d
      { d with
        writeChar := if c.uuid = WRITE_CHARACTERISTIC_UUID then some c else d.writeChar,
        notifyChar := if c.uuid = NOTIFY_CHARACTERISTIC_UUID then some c else d.notifyChar } hd
    obtain ⟨w, n, hb, hw, hn⟩ := ih _ _ hd1
    refine ⟨w, n, ?_, ?_, ?_⟩
    · simp only [bindCharacteristics, h1, hb, setDevice_setDevice]
    · intro h
      apply hw
      rcases h with h | ⟨c1, hc1, hu⟩
      · left
        by_cases hcw : c.uuid = WRITE_CHARACTERISTIC_UUID <;> simp [hcw, h]
      · rcases List.mem_cons.mp hc1 with he | hm
        · subst he
          left
          simp [hu]
        · exact Or.inr ⟨c1, hm, hu⟩
    · intro h
      apply hn
      rcases h with h | ⟨c1, hc1, hu⟩
      · left
        by_cases hcn : c.uuid = NOTIFY_CHARACTERISTIC_UUID <;> simp [hcn, h]
      · rcases List.mem_cons.mp hc1 with he | hm
        · subst he
          left
          simp [hu]
        · exact Or.inr ⟨c1, hm, hu⟩

theorem bindCharacteristics_of_none (p : Peripheral) (found : List Characteristic)
    (r r1 : Registry) (hd : getDevice r p.id = none)
    (h : bindCharacteristics p r found = some r1) : r1 = r := by
  induction found generalizing r with
  | nil =>
    simp only [bindCharacteristics, Option.some.injEq] at h
    exact h.symm
  | cons c cs ih =>
    simp only [bindCharacteristics] at h
    cases hb : bindCharacteristic p r c with
    | none => simp [hb] at h
    | some r2 =>
      have h2 : r2 = r := bindCharacteristic_of_none p r r2 c hd hb
      subst h2
      simp only [hb] at h
      exact ih r2 hd h

theorem seenStep_step (now : Int) (e : Event) (r r1 : Registry)
    (h : step now e r = some r1) : SeenStep now r r1 := by
  cases e with
  | discover p =>
    simp only [step, Option.some.injEq] at h
    subst h
    unfold onDiscover
    split
    · split
      · unfold connectToMicrobit
        split
        · exact seenStep_refl now r
        · exact seenStep_addDevice now r _ _ rfl
      · exact seenStep_refl now r
    · exact seenStep_refl now r
  | connect p =>
    simp only [step, onConnect] at h
    cases hd : getDevice r p.id with
    | none => simp [hd] at h
    | some d =>
      simp only [hd, Option.some.injEq] at h
      subst h
      exact seenStep_setDevice now r p.id d _ hd (Or.inr rfl)
  | connectError p =>
    simp only [step, onConnectError, Option.some.injEq] at h
    subst h
    exact seenStep_deleteDevice now r p.id
  | disconnect p =>
    simp only [step, onDisconnect, Option.some.injEq] at h
    subst h
    cases hd : getDevice r p.id with
    | none => exact seenStep_refl now r
    | some d => exact seenStep_setDevice now r p.id d _ hd (Or.inl rfl)
  | graceTimeout p =>
    simp only [step, onGraceTimeout, Option.some.injEq] at h
    subst h
    cases hd : getDevice r p.id with
    | none => exact seenStep_refl now r
    | some d =>
      simp only
      split
      · exact seenStep_deleteDevice now r p.id
      · exact seenStep_refl now r
  | characteristics p error found =>
    simp only [step, onCharacteristics] at h
    cases error with
    | true =>
      simp only [if_true, Option.some.injEq] at h
      subst h
      exact seenStep_refl now r
    | false =>
      simp only [Bool.false_eq_true, if_false] at h
      cases hd : getDevice r p.id with
      | none =>
        have := bindCharacteristics_of_none p found r r1 hd h
        subst this
        exact seenStep_refl now _
      | some d =>
        obtain ⟨w, n, hb, _, _⟩ := bindCharacteristics_of_some p found r d hd
        rw [hb, Option.some.injEq] at h
        subst h
        exact seenStep_setDevice now r p.id d _ hd (Or.inl rfl)
  | data deviceId raw =>
    simp only [step, onData, Option.some.injEq] at h
    subst h
    cases hd : getDevice r deviceId with
    | none =>
      simp only
      rw [processMessage_of_none r deviceId _ hd]
      exact seenStep_refl now r
    | some d =>
      simp only
      have hd1 := getDevice_setDevice_same r deviceId d { d with lastSeen := now } hd
      obtain ⟨d1, hp, hs, _⟩ := processMessage_frame _ deviceId (trim raw) _ hd1
      rw [hp, setDevice_setDevice]
      exact seenStep_setDevice now r deviceId d d1 hd (Or.inr hs)

theorem onData_lastSeen (r : Registry) (deviceId raw : Str) (now : Int) (d : Device)
    (hd : getDevice r deviceId = some d) :
    ∃ d1, getDevice (onData r deviceId raw now) deviceId = some d1 ∧ d1.lastSeen = now := by
  have hd1 := getDevice_setDevice_same r deviceId d { d with lastSeen := now } hd
  obtain ⟨d1, hp, hs, _⟩ := processMessage_frame _ deviceId (trim raw) _ hd1
  refine ⟨d1, ?_, hs⟩
  simp only [onData, hd]
  rw [hp, setDevice_setDevice]
  exact getDevice_setDevice_same r deviceId d d1 hd

/-- No record is stamped later than any clock reading still to come. -/
theorem run_bounded (pre rest : List (Int × Event)) (r0 r : Registry)
    (hclock : ((pre ++ rest).map Prod.fst).Pairwise (· ≤ ·))
    (h0 : ∀ id d, getDevice r0 id = some d → ∀ t ∈ (pre ++ rest).map Prod.fst, d.lastSeen ≤ t)
    (hrun : run r0 pre = some r) :
    ∀ id d, getDevice r id = some d → ∀ t ∈ rest.map Prod.fst, d.lastSeen ≤ t := by
  induction pre generalizing r0 with
  | nil =>
    simp only [run, Option.some.injEq] at hrun
    subst hrun
    simpa using h0
  | cons x pre ih =>
    obtain ⟨now, e⟩ := x
    simp only [run] at hrun
    cases hs : step now e r0 with
    | none => simp [hs] at hrun
    | some r1 =>
      simp only [hs] at hrun
      simp only [List.cons_append, List.map_cons, List.pairwise_cons] at hclock
      refine ih r1 hclock.2 ?_ hrun
      intro id d1 hd1 t ht
      rcases seenStep_step now e r0 r1 hs id d1 hd1 with ⟨d, hd, he⟩ | he
      · rw [he]
        exact h0 id d hd t (by simp only [List.cons_append, List.map_cons]; exact List.mem_cons_of_mem _ ht)
      · rw [he]
        exact hclock.1 t ht

/-- C9, as stated, fails: the handlers store whatever `Date.now()` returns, so
a clock reading that is lower than an earlier one lowers `lastSeen`.  After
discovery at 100 and connect success at 250, an inbound line handled at a
reading of 200 takes `lastSeen` of the existing record from 250 down to 200. -/
theorem lastSeen_follows_clock_backwards :
    run [] [(100, Event.discover samplePeripheral), (250, Event.connect samplePeripheral)] =
      some justConnected ∧
    (getDevice justConnected "m1".toList).map (fun d => d.lastSeen) = some 250 ∧
    (step 200 (Event.data "m1".toList "hello world".toList) justConnected).map
      (fun r1 => (getDevice r1 "m1".toList).map (fun d => d.lastSeen)) = some (some 200) ∧
    ¬ (∀ (pre : List (Int × Event)) (now : Int) (ev : Event) (r r1 : Registry)
        (deviceId : Str) (d d1 : Device),
        run [] pre = some r → step now ev r = some r1 →
        getDevice r deviceId = some d → getDevice r1 deviceId = some d1 →
        d.lastSeen ≤ d1.lastSeen) := by
  refine ⟨by decide, by decide, by decide, fun hall => ?_⟩
  have h := hall
    [(100, Event.discover samplePeripheral), (250, Event.connect samplePeripheral)]
    200 (Event.data "m1".toList "hello world".toList) justConnected
    [("m1".toList,
      { sampleDevice with
        connected := true
        lastSeen := 200
        lastResponse := some "hello world".toList })]
    "m1".toList { sampleDevice with connected := true, lastSeen := 250 }
    { sampleDevice with
      connected := true
      lastSeen := 200
      lastResponse := some "hello world".toList }
    (by decide) (by decide) (by decide) (by decide)
  exact absurd h (by decide)

/-- C9, amended: each inbound line for a device that exists in the registry
sets its `lastSeen` to the clock reading of that event, whatever the line is
and whatever the clock reads; and along a sequence of events handled at
non-decreasing clock readings, starting from a registry none of whose records
is stamped later than those readings, no event lowers the `lastSeen` of a
record that exists before and after it. -/
theorem lastSeen_refreshed_and_monotone (r0 : Registry) (evs : List (Int × Event))
    (pre post : List (Int × Event)) (now : Int) (ev : Event) (r r1 : Registry)
    (hsplit : evs = pre ++ (now, ev) :: post)
    (hrun : run r0 pre = some r) (hstep : step now ev r = some r1)
    (deviceId : Str) (d : Device) (hd : getDevice r deviceId = some d) :
    (∀ raw, ev = Event.data deviceId raw →
      ∃ d1, getDevice r1 deviceId = some d1 ∧ d1.lastSeen = now) ∧
    ((evs.map Prod.fst).Pairwise (· ≤ ·) →
      (∀ id d0, getDevice r0 id = some d0 → ∀ t ∈ evs.map Prod.fst, d0.lastSeen ≤ t) →
      ∀ d1, getDevice r1 deviceId = some d1 → d.lastSeen ≤ d1.lastSeen) := by
  subst hsplit
  constructor
  · intro raw hev
    subst hev
    simp only [step, Option.some.injEq] at hstep
    subst hstep
    exact onData_lastSeen r deviceId raw now d hd
  · intro hclock h0 d1 hd1
    have hb := run_bounded pre ((now, ev) :: post) r0 r hclock h0 hrun deviceId d hd now
      (by simp)
    rcases seenStep_step now ev r r1 hstep deviceId d1 hd1 with ⟨d2, hd2, he⟩ | he
    · rw [hd] at hd2
      cases hd2
      exact le_of_eq he.symm
    · rw [he]
      exact hb

/-- Witness for `lastSeen_refreshed_and_monotone`: the DATA line handled at
time 900 (fourth event of the sample stream). -/
theorem lastSeen_refreshed_and_monotone_witness :
    run [] (sampleEvents.take 3) = some [("m1".toList, deviceBeforeData)] ∧
    step 900 (Event.data "m1".toList "DATA:temp:21,light:300\n".toList)
      [("m1".toList, deviceBeforeData)] = some [("m1".toList, deviceAfterData)] ∧
    (∃ d1, getDevice [("m1".toList, deviceAfterData)] "m1".toList = some d1 ∧
      d1.lastSeen = 900) ∧
    (∀ d1, getDevice [("m1".toList, deviceAfterData)] "m1".toList = some d1 →
      deviceBeforeData.lastSeen ≤ d1.lastSeen) :=
  ⟨by decide, by decide,
    (lastSeen_refreshed_and_monotone [] sampleEvents
      (sampleEvents.take 3) (sampleEvents.drop 4) 900
      (Event.data "m1".toList "DATA:temp:21,light:300\n".toList)
      [("m1".toList, deviceBeforeData)] [("m1".toList, deviceAfterData)]
      (by decide) (by decide) (by decide) "m1".toList deviceBeforeData (by decide)).1
      "DATA:temp:21,light:300\n".toList rfl,
    (lastSeen_refreshed_and_monotone [] sampleEvents
      (sampleEvents.take 3) (sampleEvents.drop 4) 900
      (Event.data "m1".toList "DATA:temp:21,light:300\n".toList)
      [("m1".toList, deviceBeforeData)] [("m1".toList, deviceAfterData)]
      (by decide) (by decide) (by decide) "m1".toList deviceBeforeData (by decide)).2
      (by decide) (by simp [getDevice])⟩

/-! ## Connection flag and characteristic fields -/

theorem bothBound_setDevice_other (r : Registry) (deviceId id : Str) (d1 : Device)
    (hne : deviceId ≠ id) (h : BothBound r deviceId) :
    BothBound (setDevice r id d1) deviceId := by
  obtain ⟨d, hd, hw, hn⟩ := h
  exact ⟨d, by rw [getDevice_setDevice_other r id deviceId d1 hne]; exact hd, hw, hn⟩

theorem bothBound_setDevice_same (r : Registry) (deviceId : Str) (d d1 : Device)
    (hd : getDevice r deviceId = some d)
    (hw : d.writeChar.isSome = true → d1.writeChar.isSome = true)
    (hn : d.notifyChar.isSome = true → d1.notifyChar.isSome = true)
    (h : BothBound r deviceId) : BothBound (setDevice r deviceId d1) deviceId := by
  obtain ⟨d0, hd0, hw0, hn0⟩ := h
  rw [hd] at hd0
  cases hd0
  exact ⟨d1, getDevice_setDevice_same r deviceId d d1 hd, hw hw0, hn hn0⟩

/-- A handler that writes one existing record `id`, keeping bound fields bound,
keeps `BothBound` for every device. -/
theorem bothBound_setDevice (r : Registry) (deviceId id : Str) (d d1 : Device)
    (hd : getDevice r id = some d)
    (hw : d.writeChar.isSome = true → d1.writeChar.isSome = true)
    (hn : d.notifyChar.isSome = true → d1.notifyChar.isSome = true)
    (h : BothBound r deviceId) : BothBound (setDevice r id d1) deviceId := by
  by_cases hid : deviceId = id
  · subst hid
    exact bothBound_setDevice_same r deviceId d d1 hd hw hn h
  · exact bothBound_setDevice_other r deviceId id d1 hid h

theorem bothBound_step (now : Int) (e : Event) (r r1 : Registry) (deviceId : Str)
    (hkeep : removesRecord deviceId e = false) (h : BothBound r deviceId)
    (hstep : step now e r = some r1) : BothBound r1 deviceId := by
  cases e with
  | discover p =>
    simp only [step, Option.some.injEq] at hstep
    subst hstep
    unfold onDiscover
    split
    · split
      · unfold connectToMicrobit
        split
        · exact h
        · obtain ⟨d, hd, hw, hn⟩ := h
          refine ⟨d, ?_, hw, hn⟩
          rw [getDevice_addDevice, hd]
      · exact h
    · exact h
  | connect p =>
    simp only [step, onConnect] at hstep
    cases hd : getDevice r p.id with
    | none => simp [hd] at hstep
    | some d =>
      simp only [hd, Option.some.injEq] at hstep
      subst hstep
      exact bothBound_setDevice r deviceId p.id d _ hd id id h
  | connectError p =>
    simp only [step, onConnectError, Option.some.injEq] at hstep
    subst hstep
    have hne : deviceId ≠ p.id := by
      intro he
      simp [removesRecord, he] at hkeep
    obtain ⟨d, hd, hw, hn⟩ := h
    exact ⟨d, by rw [getDevice_deleteDevice_other r p.id deviceId hne]; exact hd, hw, hn⟩
  | disconnect p =>
    simp only [step, onDisconnect, Option.some.injEq] at hstep
    subst hstep
    cases hd : getDevice r p.id with
    | none => exact h
    | some d => exact bothBound_setDevice r deviceId p.id d _ hd id id h
  | graceTimeout p =>
    simp only [step, onGraceTimeout, Option.some.injEq] at hstep
    subst hstep
    have hne : deviceId ≠ p.id := by
      intro he
      simp [removesRecord, he] at hkeep
    cases hd : getDevice r p.id with
    | none => exact h
    | some d =>
      simp only
      split
      · obtain ⟨d0, hd0, hw, hn⟩ := h
        exact ⟨d0, by rw [getDevice_deleteDevice_other r p.id deviceId hne]; exact hd0, hw, hn⟩
      · exact h
  | characteristics p error found =>
    simp only [step, onCharacteristics] at hstep
    cases error with
    | true =>
      simp only [if_true, Option.some.injEq] at hstep
      subst hstep
      exact h
    | false =>
      simp only [Bool.false_eq_true, if_false] at hstep
      cases hd : getDevice r p.id with
      | none =>
        have := bindCharacteristics_of_none p found r r1 hd hstep
        subst this
        exact h
      | some d =>
        obtain ⟨w, n, hb, hw, hn⟩ := bindCharacteristics_of_some p found r d hd
        rw [hb, Option.some.injEq] at hstep
        subst hstep
        exact bothBound_setDevice r deviceId p.id d _ hd (fun hx => hw (Or.inl hx))
          (fun hx => hn (Or.inl hx)) h
  | data id raw =>
    simp only [step, onData, Option.some.injEq] at hstep
    subst hstep
    cases hd : getDevice r id with
    | none =>
      simp only
      rw [processMessage_of_none r id _ hd]
      exact h
    | some d =>
      simp only
      have hd1 := getDevice_setDevice_same r id d { d with lastSeen := now } hd
      obtain ⟨d1, hp, _, _, hw, hn⟩ := processMessage_frame _ id (trim raw) _ hd1
      rw [hp, setDevice_setDevice]
      exact bothBound_setDevice r deviceId id d d1 hd (fun hx => by rw [hw]; exact hx)
        (fun hx => by rw [hn]; exact hx) h

theorem bothBound_run (evs : List (Int × Event)) (r r1 : Registry) (deviceId : Str)
    (hkeep : ∀ x ∈ evs, removesRecord deviceId x.2 = false) (h : BothBound r deviceId)
    (hrun : run r evs = some r1) : BothBound r1 deviceId := by
  induction evs generalizing r with
  | nil =>
    simp only [run, Option.some.injEq] at hrun
    subst hrun
    exact h
  | cons x evs ih =>
    obtain ⟨now, e⟩ := x
    simp only [run] at hrun
    cases hs : step now e r with
    | none => simp [hs] at hrun
    | some r2 =>
      simp only [hs] at hrun
      exact ih r2 (fun y hy => hkeep y (List.mem_cons_of_mem _ hy))
        (bothBound_step now e r r2 deviceId (hkeep (now, e) (List.mem_cons_self _ _)) h hs)
        hrun

/-- C10, as stated, fails: after discovery and connect success the record is
connected while `writeChar` and `notifyChar` are still `null`. -/
theorem connected_does_not_imply_bound :
    Reachable justConnected ∧
    ¬ (∀ r, Reachable r → ∀ deviceId d, getDevice r deviceId = some d →
        d.connected = true → d.writeChar ≠ none ∧ d.notifyChar ≠ none) := by
  have hr : Reachable justConnected :=
    ⟨[(100, Event.discover samplePeripheral), (250, Event.connect samplePeripheral)],
      by decide⟩
  refine ⟨hr, fun hall => ?_⟩
  have := hall justConnected hr "m1".toList
    { sampleDevice with connected := true, lastSeen := 250 } (by decide) rfl
  exact this.1 rfl

/-- C10, amended: the handler of a characteristic resolution that delivers both
the write and the notify characteristic to an existing record completes, binds
both fields and leaves the connection flag as it is; from then on both fields
stay bound through every later handler, connect and disconnect included, until
a connect failure or the grace timer deletes the record. -/
theorem resolved_characteristics_stay_bound (r r1 : Registry) (p : Peripheral)
    (d : Device) (found : List Characteristic) (now : Int) (evs : List (Int × Event))
    (hd : getDevice r p.id = some d)
    (hw : ∃ c ∈ found, c.uuid = WRITE_CHARACTERISTIC_UUID)
    (hn : ∃ c ∈ found, c.uuid = NOTIFY_CHARACTERISTIC_UUID)
    (hkeep : ∀ x ∈ evs, removesRecord p.id x.2 = false)
    (hrun : run r ((now, Event.characteristics p false found) :: evs) = some r1) :
    (∃ r0 d0, step now (Event.characteristics p false found) r = some r0 ∧
      getDevice r0 p.id = some d0 ∧ d0.connected = d.connected ∧
      d0.writeChar.isSome = true ∧ d0.notifyChar.isSome = true) ∧
    BothBound r1 p.id := by
  obtain ⟨w, n, hb, hw1, hn1⟩ := bindCharacteristics_of_some p found r d hd
  have hs : step now (Event.characteristics p false found) r =
      some (setDevice r p.id { d with writeChar := w, notifyChar := n }) := by
    simp only [step, onCharacteristics, Bool.false_eq_true, if_false, hb]
  have hg := getDevice_setDevice_same r p.id d { d with writeChar := w, notifyChar := n } hd
  refine ⟨⟨_, _, hs, hg, rfl, hw1 (Or.inr hw), hn1 (Or.inr hn)⟩, ?_⟩
  simp only [run, hs] at hrun
  exact bothBound_run evs _ r1 p.id hkeep ⟨_, hg, hw1 (Or.inr hw), hn1 (Or.inr hn)⟩ hrun

/-- Witness for `resolved_characteristics_stay_bound`: resolution of both
characteristics on the connected sample record, followed by a disconnect. -/
theorem resolved_characteristics_stay_bound_witness :
    step 300 (Event.characteristics samplePeripheral false
        [⟨WRITE_CHARACTERISTIC_UUID⟩, ⟨NOTIFY_CHARACTERISTIC_UUID⟩]) justConnected =
      some resolvedRegistry ∧
    ((∃ r0 d0, step 300 (Event.characteristics samplePeripheral false
          [⟨WRITE_CHARACTERISTIC_UUID⟩, ⟨NOTIFY_CHARACTERISTIC_UUID⟩]) justConnected = some r0 ∧
        getDevice r0 samplePeripheral.id = some d0 ∧
        d0.connected = ({ sampleDevice with connected := true, lastSeen := 250 } : Device).connected ∧
        d0.writeChar.isSome = true ∧ d0.notifyChar.isSome = true) ∧
      BothBound resolvedThenDisconnected samplePeripheral.id) :=
  ⟨by decide,
   resolved_characteristics_stay_bound justConnected resolvedThenDisconnected samplePeripheral
     { sampleDevice with connected := true, lastSeen := 250 }
     [⟨WRITE_CHARACTERISTIC_UUID⟩, ⟨NOTIFY_CHARACTERISTIC_UUID⟩] 300
     [(400, Event.disconnect samplePeripheral)]
     (by decide) ⟨⟨WRITE_CHARACTERISTIC_UUID⟩, by decide, rfl⟩
     ⟨⟨NOTIFY_CHARACTERISTIC_UUID⟩, by decide, rfl⟩ (by decide) (by decide)⟩

/-! ## The parser: `DATA:` lines -/

theorem split_eq (sep : Char) (s : Str) :
    split sep s = s.takeWhile (fun c => c ≠ sep) ::
      (match s.dropWhile (fun c => c ≠ sep) with
       | [] => []
       | _ :: t => split sep t) := by
  induction s with
  | nil => rfl
  | cons c cs ih =>
    by_cases hc : c = sep
    · simp [split, hc, List.takeWhile_cons, List.dropWhile_cons]
    · rw [split, if_neg hc, ih]
      simp [List.takeWhile_cons, List.dropWhile_cons, hc]

theorem dropWhile_ne_of_mem (sep : Char) (s : Str) (h : sep ∈ s) :
    s.dropWhile (fun c => c ≠ sep) = sep :: (s.dropWhile (fun c => c ≠ sep)).drop 1 := by
  induction s with
  | nil => simp at h
  | cons c cs ih =>
    by_cases hc : c = sep
    · simp [List.dropWhile_cons, hc]
    · have hm : sep ∈ cs := by
        rcases List.mem_cons.mp h with h1 | h1
        · exact absurd h1.symm hc
        · exact h1
      simpa [List.dropWhile_cons, hc] using ih hm

theorem dropWhile_ne_of_not_mem (sep : Char) (s : Str) (h : sep ∉ s) :
    s.dropWhile (fun c => c ≠ sep) = [] := by
  rw [List.dropWhile_eq_nil_iff]
  intro x hx
  have : x ≠ sep := fun he => h (he ▸ hx)
  simpa using this

/-- The pieces that `const [key, value] = part.split(':')` binds. -/
theorem split_colon_of_mem (part : Str) (h : ':' ∈ part) :
    ∃ more, split ':' part = keyText part :: valueText part :: more := by
  rw [split_eq ':' part, dropWhile_ne_of_mem ':' part h]
  simp only
  rw [split_eq ':' ((part.dropWhile (fun c => c ≠ ':')).drop 1)]
  exact ⟨_, rfl⟩

theorem split_colon_of_not_mem (part : Str) (h : ':' ∉ part) :
    split ':' part = [keyText part] := by
  rw [split_eq ':' part, dropWhile_ne_of_not_mem ':' part h]
  rfl

theorem applyPart_of_dropped (device : Device) (part : Str) (h : isDropped part = true) :
    applyPart device part = device := by
  simp only [isDropped, decide_eq_true_eq] at h
  by_cases hm : ':' ∈ part
  · obtain ⟨more, hs⟩ := split_colon_of_mem part hm
    have hkv : ¬ (keyText part ≠ [] ∧ valueText part ≠ []) := by
      rintro ⟨h1, h2⟩
      rcases h with h | h | h
      · exact h hm
      · exact h1 h
      · exact h2 h
    simp only [applyPart, hs, if_neg hkv]
  · simp only [applyPart, split_colon_of_not_mem part hm]

theorem applyPart_of_kept (device : Device) (part : Str) (h : isDropped part = false) :
    applyPart device part = storeSegment device part := by
  simp only [isDropped, decide_eq_false_iff_not, not_or, not_not] at h
  obtain ⟨hm, hk, hv⟩ := h
  obtain ⟨more, hs⟩ := split_colon_of_mem part hm
  have hkv : keyText part ≠ [] ∧ valueText part ≠ [] := ⟨hk, hv⟩
  simp only [applyPart, hs, if_pos hkv, storeSegment]

theorem foldl_applyPart_filter (parts : List Str) (device : Device) :
    parts.foldl applyPart device =
      (parts.filter (fun p => !isDropped p)).foldl applyPart device := by
  induction parts generalizing device with
  | nil => rfl
  | cons p ps ih =>
    cases hp : isDropped p with
    | true => simp [List.filter_cons, hp, applyPart_of_dropped device p hp, ih]
    | false => simp [List.filter_cons, hp, ih]

theorem processMessage_data (r : Registry) (deviceId body : Str) (device : Device)
    (hdev : getDevice r deviceId = some device) :
    processMessage r deviceId ("DATA:".toList ++ body) =
      setDevice r deviceId ((split ',' (trim body)).foldl applyPart device) := by
  have h1 : startsWith ("DATA:".toList ++ body) "CONNECTED:".toList = false := rfl
  have h2 : startsWith ("DATA:".toList ++ body) "DATA:".toList = true := by
    simp [startsWith]
  have h3 : substring ("DATA:".toList ++ body) 5 = body := rfl
  simp only [processMessage, hdev, h1, h2, h3, Bool.false_eq_true, if_false, if_true]

theorem get_upsert_same (o : Obj) (k v : Str) : Obj.get (upsert o k v) k = some v := by
  induction o with
  | nil => simp [upsert, Obj.get]
  | cons e rest ih =>
    obtain ⟨k0, v0⟩ := e
    by_cases hk : k0 = k
    · simp [upsert, Obj.get, hk]
    · simp [upsert, Obj.get, hk, ih]

theorem get_upsert_other (o : Obj) (k k1 v : Str) (hne : k ≠ k1) :
    Obj.get (upsert o k v) k1 = Obj.get o k1 := by
  induction o with
  | nil => simp [upsert, Obj.get, hne]
  | cons e rest ih =>
    obtain ⟨k0, v0⟩ := e
    by_cases hk : k0 = k
    · subst hk
      simp [upsert, Obj.get, hne]
    · by_cases hk1 : k0 = k1
      · subst hk1
        simp [upsert, Obj.get, hk]
      · simp [upsert, Obj.get, hk, hk1, ih]

theorem get_setProp_other (o : Obj) (k k1 v : Str) (hne : k ≠ k1) :
    Obj.get (setProp o k v) k1 = Obj.get o k1 := by
  unfold setProp
  split
  · rfl
  · exact get_upsert_other o k k1 v hne

/-- A later segment that is dropped, or that stores under another key, leaves
the property `k` as it is. -/
theorem get_foldl_applyPart (parts : List Str) (device : Device) (k : Str)
    (h : ∀ p ∈ parts, isDropped p = true ∨ trim (keyText p) ≠ k) :
    Obj.get (parts.foldl applyPart device).data k = Obj.get device.data k := by
  induction parts generalizing device with
  | nil => rfl
  | cons p ps ih =>
    simp only [List.foldl_cons]
    rw [ih (applyPart device p) (fun q hq => h q (List.mem_cons_of_mem _ hq))]
    cases hp : isDropped p with
    | true => rw [applyPart_of_dropped device p hp]
    | false =>
      rw [applyPart_of_kept device p hp]
      have hne : trim (keyText p) ≠ k := by
        rcases h p (List.mem_cons_self _ _) with h1 | h1
        · rw [hp] at h1; cases h1
        · exact h1
      unfold storeSegment
      split
      · rfl
      · exact get_setProp_other device.data _ k _ hne

theorem keyText_append_colon (k v : Str) (hk : ':' ∉ k) : keyText (k ++ ':' :: v) = k := by
  unfold keyText
  induction k with
  | nil => simp [List.takeWhile_cons]
  | cons c cs ih =>
    have hc : c ≠ ':' := fun he => hk (he ▸ List.mem_cons_self _ _)
    have hcs : ':' ∉ cs := fun hm => hk (List.mem_cons_of_mem _ hm)
    simp only [List.cons_append, List.takeWhile_cons, hc, ne_eq, not_false_eq_true,
      decide_True, if_true]
    rw [ih hcs]

theorem afterColon_append_colon (k v : Str) (hk : ':' ∉ k) : afterColon (k ++ ':' :: v) = v := by
  unfold afterColon
  induction k with
  | nil => simp [List.dropWhile_cons]
  | cons c cs ih =>
    have hc : c ≠ ':' := fun he => hk (he ▸ List.mem_cons_self _ _)
    have hcs : ':' ∉ cs := fun hm => hk (List.mem_cons_of_mem _ hm)
    simp only [List.cons_append, List.dropWhile_cons, hc, ne_eq, not_false_eq_true,
      decide_True, if_true]
    exact ih hcs

theorem isDropped_append_colon (k v : Str) (hk : ':' ∉ k) (hk0 : k ≠ [])
    (hv0 : keyText v ≠ []) : isDropped (k ++ ':' :: v) = false := by
  simp only [isDropped, decide_eq_false_iff_not, not_or, not_not, valueText,
    keyText_append_colon k v hk, afterColon_append_colon k v hk]
  exact ⟨by simp, hk0, hv0⟩

/-- C4, as stated, fails: for `DATA:time:12:30` the stored value is `12`, not
the remainder `12:30`. -/
theorem value_is_not_remainder_after_first_colon :
    getDevice (processMessage sampleRegistry "m1".toList "DATA:time:12:30".toList)
        "m1".toList =
      some { sampleDevice with data := [("time".toList, "12".toList)] } ∧
    (getDevice (processMessage sampleRegistry "m1".toList "DATA:time:12:30".toList)
        "m1".toList).map (fun d => Obj.get d.data "time".toList) ≠
      some (some "12:30".toList) := by
  constructor <;> decide

/-- C4, amended: `processMessage` splits each comma-separated segment on every
colon and uses the first two pieces only.  For a segment `k:v` of a DATA line
with `k` non-empty and colon-free, the value stored under `trim(k)` is the part
of `v` before its first colon, trimmed (all of `v` when `v` has no colon); the
rest of `v` is discarded.  This is the final `sensorData[trim(k)]` when no later
segment of the line stores under the same key.  The key is neither `id` (which
goes to `customId`) nor `__proto__`. -/
theorem value_is_text_between_first_two_colons (r : Registry) (deviceId body : Str)
    (device : Device) (before after : List Str) (k v : Str)
    (hdev : getDevice r deviceId = some device)
    (hsplit : split ',' (trim body) = before ++ (k ++ ':' :: v) :: after)
    (hk : ':' ∉ k) (hk0 : k ≠ []) (hv0 : keyText v ≠ [])
    (hid : trim k ≠ "id".toList) (hproto : trim k ≠ "__proto__".toList)
    (hafter : ∀ p ∈ after, isDropped p = true ∨ trim (keyText p) ≠ trim k) :
    ∃ d1, getDevice (processMessage r deviceId ("DATA:".toList ++ body)) deviceId = some d1 ∧
      Obj.get d1.data (trim k) = some (trim (keyText v)) := by
  refine ⟨(split ',' (trim body)).foldl applyPart device, ?_, ?_⟩
  · rw [processMessage_data r deviceId body device hdev]
    exact getDevice_setDevice_same r deviceId device _ hdev
  · rw [hsplit, List.foldl_append, List.foldl_cons, get_foldl_applyPart after _ (trim k) hafter,
      applyPart_of_kept _ _ (isDropped_append_colon k v hk hk0 hv0)]
    simp only [storeSegment, valueText, keyText_append_colon k v hk,
      afterColon_append_colon k v hk, if_neg hid, setProp, if_neg hproto]
    exact get_upsert_same _ _ _

/-- Witness for `value_is_text_between_first_two_colons`: the line
`DATA:a:1,time:12:30,b:2`. -/
theorem value_is_text_between_first_two_colons_witness :
    ∃ d1, getDevice (processMessage sampleRegistry "m1".toList
        ("DATA:".toList ++ "a:1,time:12:30,b:2".toList)) "m1".toList = some d1 ∧
      Obj.get d1.data (trim "time".toList) = some (trim (keyText "12:30".toList)) :=
  value_is_text_between_first_two_colons sampleRegistry "m1".toList "a:1,time:12:30,b:2".toList
    sampleDevice ["a:1".toList] ["b:2".toList] "time".toList "12:30".toList
    (by decide) (by decide) (by decide) (by decide) (by decide) (by decide) (by decide)
    (by decide)

/-- C5, as stated, fails on its own example: in `DATA:a:1, :5,b:,c,d:4` the
segment ` :5` has a key that is empty after trimming, yet it is stored, under
the empty key. -/
theorem blank_key_segment_is_stored :
    getDevice (processMessage sampleRegistry "m1".toList "DATA:a:1, :5,b:,c,d:4".toList)
        "m1".toList =
      some { sampleDevice with
        data := [("a".toList, "1".toList), ([], "5".toList), ("d".toList, "4".toList)] } ∧
    getDevice (processMessage sampleRegistry "m1".toList "DATA:a:1, :5,b:,c,d:4".toList)
        "m1".toList ≠
      some { sampleDevice with data := [("a".toList, "1".toList), ("d".toList, "4".toList)] } := by
  constructor <;> decide

/-- C5, amended: a segment of a DATA line (a piece of the comma split of the
trimmed payload) that has no colon, or nothing before its first colon, or
nothing between its first and second colon, is dropped: the callback returns
the record as it was; and the line as a whole has the effect of applying the
callback, in order, to the segments that are not dropped.  Emptiness is tested
before trimming. -/
theorem malformed_segments_are_dropped (r : Registry) (deviceId body : Str) (device : Device)
    (hdev : getDevice r deviceId = some device) :
    (∀ (dev : Device) (part : Str), isDropped part = true → applyPart dev part = dev) ∧
    processMessage r deviceId ("DATA:".toList ++ body) =
      setDevice r deviceId
        (((split ',' (trim body)).filter (fun p => !isDropped p)).foldl applyPart device) ∧
    getDevice (processMessage r deviceId ("DATA:".toList ++ body)) deviceId =
      some (((split ',' (trim body)).filter (fun p => !isDropped p)).foldl applyPart device) := by
  have hp := processMessage_data r deviceId body device hdev
  rw [foldl_applyPart_filter] at hp
  refine ⟨applyPart_of_dropped, hp, ?_⟩
  rw [hp]
  exact getDevice_setDevice_same r deviceId device _ hdev

/-- Witness for `malformed_segments_are_dropped`: in `DATA:a:1,:5,b:,c,d:4`
the segments `:5`, `b:` and `c` are dropped. -/
theorem malformed_segments_are_dropped_witness :
    (split ',' (trim "a:1,:5,b:,c,d:4".toList)).filter (fun p => !isDropped p) =
      ["a:1".toList, "d:4".toList] ∧
    getDevice (processMessage sampleRegistry "m1".toList
        ("DATA:".toList ++ "a:1,:5,b:,c,d:4".toList)) "m1".toList =
      some (((split ',' (trim "a:1,:5,b:,c,d:4".toList)).filter
        (fun p => !isDropped p)).foldl applyPart sampleDevice) :=
  ⟨by decide,
   (malformed_segments_are_dropped sampleRegistry "m1".toList "a:1,:5,b:,c,d:4".toList
      sampleDevice (by decide)).2.2⟩

/-! ## Well-formed `DATA:` lines -/

theorem takeWhile_ne_append (sep : Char) (a b : Str) (h : sep ∉ a) :
    (a ++ sep :: b).takeWhile (fun c => c ≠ sep) = a := by
  induction a with
  | nil => simp [List.takeWhile_cons]
  | cons c cs ih =>
    have hc : c ≠ sep := fun he => h (he ▸ List.mem_cons_self _ _)
    have hcs : sep ∉ cs := fun hm => h (List.mem_cons_of_mem _ hm)
    simp only [List.cons_append, List.takeWhile_cons, hc, ne_eq, not_false_eq_true,
      decide_True, if_true]
    rw [ih hcs]

theorem dropWhile_ne_append (sep : Char) (a b : Str) (h : sep ∉ a) :
    (a ++ sep :: b).dropWhile (fun c => c ≠ sep) = sep :: b := by
  induction a with
  | nil => simp [List.dropWhile_cons]
  | cons c cs ih =>
    have hc : c ≠ sep := fun he => h (he ▸ List.mem_cons_self _ _)
    have hcs : sep ∉ cs := fun hm => h (List.mem_cons_of_mem _ hm)
    simp only [List.cons_append, List.dropWhile_cons, hc, ne_eq, not_false_eq_true,
      decide_True, if_true]
    exact ih hcs

theorem split_of_not_mem (sep : Char) (s : Str) (h : sep ∉ s) : split sep s = [s] := by
  rw [split_eq, dropWhile_ne_of_not_mem sep s h]
  have : s.takeWhile (fun c => c ≠ sep) = s := by
    rw [List.takeWhile_eq_self_iff]
    intro x hx
    have : x ≠ sep := fun he => h (he ▸ hx)
    simpa using this
  rw [this]

theorem split_append_sep (sep : Char) (a b : Str) (h : sep ∉ a) :
    split sep (a ++ sep :: b) = a :: split sep b := by
  rw [split_eq, takeWhile_ne_append sep a b h, dropWhile_ne_append sep a b h]

theorem split_joinComma (parts : List Str) (hne : parts ≠ [])
    (h : ∀ p ∈ parts, ',' ∉ p) : split ',' (joinComma parts) = parts := by
  induction parts with
  | nil => exact absurd rfl hne
  | cons p ps ih =>
    cases ps with
    | nil => exact split_of_not_mem ',' p (h p (List.mem_cons_self _ _))
    | cons q qs =>
      rw [joinComma, split_append_sep ',' p _ (h p (List.mem_cons_self _ _)),
        ih (by simp) (fun x hx => h x (List.mem_cons_of_mem _ hx))]

theorem keyText_of_not_mem (s : Str) (h : ':' ∉ s) : keyText s = s := by
  unfold keyText
  rw [List.takeWhile_eq_self_iff]
  intro x hx
  have : x ≠ ':' := fun he => h (he ▸ hx)
  simpa using this

theorem ne_nil_of_trim_ne_nil (s : Str) (h : trim s ≠ []) : s ≠ [] := by
  intro hs
  subst hs
  exact h (by simp [trim, trimStart, trimEnd])

theorem applyPart_render (device : Device) (kv : Str × Str) (h : WellFormedPair kv) :
    applyPart device (render kv) = storePair device kv := by
  obtain ⟨k, v⟩ := kv
  obtain ⟨hk, _, hv, _, hk0, hv0⟩ := h
  simp only at hk hv hk0 hv0
  have hkv : keyText v = v := keyText_of_not_mem v hv
  have hd : isDropped (k ++ ':' :: v) = false :=
    isDropped_append_colon k v hk (ne_nil_of_trim_ne_nil k hk0)
      (by rw [hkv]; exact ne_nil_of_trim_ne_nil v hv0)
  simp only [render, applyPart_of_kept device _ hd, storeSegment, storePair, valueText,
    keyText_append_colon k v hk, afterColon_append_colon k v hk, hkv]

theorem foldl_applyPart_render (segs : List (Str × Str)) (device : Device)
    (h : ∀ kv ∈ segs, WellFormedPair kv) :
    (segs.map render).foldl applyPart device = segs.foldl storePair device := by
  induction segs generalizing device with
  | nil => rfl
  | cons kv rest ih =>
    simp only [List.map_cons, List.foldl_cons]
    rw [applyPart_render device kv (h kv (List.mem_cons_self _ _)),
      ih _ (fun x hx => h x (List.mem_cons_of_mem _ hx))]

theorem not_mem_render (kv : Str × Str) (h : WellFormedPair kv) : ',' ∉ render kv := by
  obtain ⟨_, hk, _, hv, _, _⟩ := h
  simp only [render, List.mem_append, List.mem_cons, not_or]
  exact ⟨hk, by decide, hv⟩

/-- Without trimming of the payload: the segments of an untrimmed payload of
well-formed pairs are applied pair by pair. -/
theorem foldl_applyPart_payload (segs : List (Str × Str)) (device : Device)
    (hne : segs ≠ []) (h : ∀ kv ∈ segs, WellFormedPair kv) :
    (split ',' (payload segs)).foldl applyPart device = segs.foldl storePair device := by
  unfold payload
  rw [split_joinComma (segs.map render) (by simpa using hne), foldl_applyPart_render segs device h]
  intro p hp
  obtain ⟨kv, hkv, he⟩ := List.mem_map.mp hp
  rw [← he]
  exact not_mem_render kv (h kv hkv)

/-! ### Trimming -/

theorem dropWhile_append_of_ne_nil (p : Char → Bool) (a b : Str) (h : a.dropWhile p ≠ []) :
    (a ++ b).dropWhile p = a.dropWhile p ++ b := by
  rw [List.dropWhile_append]
  have : (a.dropWhile p).isEmpty = false := by
    cases hd : a.dropWhile p with
    | nil => exact absurd hd h
    | cons x xs => rfl
  simp [this]

theorem rdropWhile_append_of_ne_nil (p : Char → Bool) (a b : Str) (h : b.rdropWhile p ≠ []) :
    (a ++ b).rdropWhile p = a ++ b.rdropWhile p := by
  have h1 : b.reverse.dropWhile p ≠ [] := by
    intro he
    apply h
    simp [List.rdropWhile, he]
  simp only [List.rdropWhile, List.reverse_append,
    dropWhile_append_of_ne_nil p b.reverse a.reverse h1, List.reverse_reverse]

theorem rdropWhile_cons (p : Char → Bool) (c : Char) (cs : Str) :
    (c :: cs).rdropWhile p =
      if cs.rdropWhile p = [] then (if p c then [] else [c]) else c :: cs.rdropWhile p := by
  by_cases h : cs.rdropWhile p = []
  · rw [if_pos h]
    have hall : ∀ x ∈ cs, p x = true := List.rdropWhile_eq_nil_iff.mp h
    by_cases hc : p c = true
    · rw [if_pos hc, List.rdropWhile_eq_nil_iff]
      intro x hx
      rcases List.mem_cons.mp hx with he | hm
      · rw [he]; exact hc
      · exact hall x hm
    · rw [if_neg hc]
      have h1 : ([c] : Str).rdropWhile p ≠ [] := by
        simp [List.rdropWhile_singleton, hc]
      have h2 : cs.reverse.dropWhile p = [] := by
        rw [List.dropWhile_eq_nil_iff]
        intro x hx
        exact hall x (List.mem_reverse.mp hx)
      simp [List.rdropWhile, List.dropWhile_append, h2, List.dropWhile_cons, hc]
  · rw [if_neg h]
    exact rdropWhile_append_of_ne_nil p [c] cs h

theorem rdropWhile_dropWhile_comm (p : Char → Bool) (l : Str) :
    (l.dropWhile p).rdropWhile p = (l.rdropWhile p).dropWhile p := by
  induction l with
  | nil => simp
  | cons c cs ih =>
    by_cases hc : p c = true
    · rw [List.dropWhile_cons_of_pos hc, ih, rdropWhile_cons]
      by_cases h : cs.rdropWhile p = []
      · simp [h, hc]
      · rw [if_neg h, List.dropWhile_cons_of_pos hc]
    · rw [List.dropWhile_cons_of_neg hc, rdropWhile_cons]
      by_cases h : cs.rdropWhile p = []
      · simp [h, hc]
      · rw [if_neg h, List.dropWhile_cons_of_neg hc]

theorem trim_trimStart (s : Str) : trim (trimStart s) = trim s := by
  simp only [trim, trimStart, List.dropWhile_idempotent]

theorem trim_trimEnd (s : Str) : trim (trimEnd s) = trim s := by
  simp only [trim, trimStart, trimEnd]
  rw [← rdropWhile_dropWhile_comm, List.rdropWhile_idempotent, rdropWhile_dropWhile_comm]

theorem trimStart_ne_nil (s : Str) (h : trim s ≠ []) : trimStart s ≠ [] := by
  intro he
  apply h
  simp [trim, he, trimEnd]

theorem trimEnd_ne_nil (s : Str) (h : trim s ≠ []) : trimEnd s ≠ [] := by
  intro he
  apply h
  have : trim s = (s.rdropWhile isWhiteSpace).dropWhile isWhiteSpace := by
    simp only [trim, trimStart, trimEnd]
    exact rdropWhile_dropWhile_comm isWhiteSpace s
  rw [this]
  simp only [trimEnd] at he
  simp [he]

theorem wellFormed_trimStart (k v : Str) (h : WellFormedPair (k, v)) :
    WellFormedPair (trimStart k, v) := by
  obtain ⟨h1, h2, h3, h4, h5, h6⟩ := h
  have hsub : ∀ x, x ∈ trimStart k → x ∈ k := fun x hx =>
    (List.dropWhile_suffix isWhiteSpace).subset hx
  refine ⟨fun hm => h1 (hsub _ hm), fun hm => h2 (hsub _ hm), h3, h4, ?_, h6⟩
  simp only [trim_trimStart]
  exact h5

theorem wellFormed_trimEnd (k v : Str) (h : WellFormedPair (k, v)) :
    WellFormedPair (k, trimEnd v) := by
  obtain ⟨h1, h2, h3, h4, h5, h6⟩ := h
  have hsub : ∀ x, x ∈ trimEnd v → x ∈ v := fun x hx =>
    (List.rdropWhile_prefix isWhiteSpace v).subset hx
  refine ⟨h1, h2, fun hm => h3 (hsub _ hm), fun hm => h4 (hsub _ hm), h5, ?_⟩
  simp only [trim_trimEnd]
  exact h6

theorem storePair_trimStart (device : Device) (k v : Str) :
    storePair device (trimStart k, v) = storePair device (k, v) := by
  simp only [storePair, trim_trimStart]

theorem storePair_trimEnd (device : Device) (k v : Str) :
    storePair device (k, trimEnd v) = storePair device (k, v) := by
  simp only [storePair, trim_trimEnd]

/-! ### Trimming a payload -/

theorem joinComma_cons_of_ne_nil (p : Str) (ps : List Str) (h : ps ≠ []) :
    joinComma (p :: ps) = p ++ ',' :: joinComma ps := by
  cases ps with
  | nil => exact absurd rfl h
  | cons q qs => rfl

theorem joinComma_cons (ps : List Str) : ∃ t : Str, ∀ p, joinComma (p :: ps) = p ++ t := by
  cases ps with
  | nil => exact ⟨[], fun p => by simp [joinComma]⟩
  | cons q qs => exact ⟨',' :: joinComma (q :: qs), fun p => rfl⟩

theorem joinComma_concat (ps : List Str) : ∃ h : Str, ∀ q, joinComma (ps ++ [q]) = h ++ q := by
  induction ps with
  | nil => exact ⟨[], fun q => by simp [joinComma]⟩
  | cons p ps ih =>
    obtain ⟨h, hh⟩ := ih
    refine ⟨p ++ ',' :: h, fun q => ?_⟩
    rw [List.cons_append, joinComma_cons_of_ne_nil p (ps ++ [q]) (by simp), hh q]
    simp

theorem trimStart_payload (kv : Str × Str) (rest : List (Str × Str))
    (h : trimStart kv.1 ≠ []) :
    trimStart (payload (kv :: rest)) = payload ((trimStart kv.1, kv.2) :: rest) := by
  obtain ⟨t, ht⟩ := joinComma_cons (rest.map render)
  simp only [payload, List.map_cons, ht, render, List.append_assoc]
  exact dropWhile_append_of_ne_nil isWhiteSpace kv.1 _ h

theorem trimEnd_payload (init : List (Str × Str)) (kv : Str × Str)
    (h : trimEnd kv.2 ≠ []) :
    trimEnd (payload (init ++ [kv])) = payload (init ++ [(kv.1, trimEnd kv.2)]) := by
  obtain ⟨t, ht⟩ := joinComma_concat (init.map render)
  simp only [payload, List.map_append, List.map_cons, List.map_nil, ht, render]
  have h1 : t ++ (kv.1 ++ ':' :: kv.2) = (t ++ kv.1 ++ [':']) ++ kv.2 := by simp
  have h2 : t ++ (kv.1 ++ ':' :: trimEnd kv.2) = (t ++ kv.1 ++ [':']) ++ trimEnd kv.2 := by simp
  rw [h1, h2]
  exact rdropWhile_append_of_ne_nil isWhiteSpace _ kv.2 h

/-- Trimming the payload of well-formed pairs only trims the first key and the
last value, which changes neither well-formedness nor the updates. -/
theorem trim_payload (segs : List (Str × Str)) (hne : segs ≠ [])
    (h : ∀ kv ∈ segs, WellFormedPair kv) :
    ∃ segs2, trim (payload segs) = payload segs2 ∧ segs2 ≠ [] ∧
      (∀ kv ∈ segs2, WellFormedPair kv) ∧
      ∀ d, segs2.foldl storePair d = segs.foldl storePair d := by
  cases segs with
  | nil => exact absurd rfl hne
  | cons kv rest =>
    obtain ⟨k, v⟩ := kv
    have hkv : WellFormedPair (k, v) := h (k, v) (List.mem_cons_self _ _)
    have h1 : trimStart (payload ((k, v) :: rest)) = payload ((trimStart k, v) :: rest) :=
      trimStart_payload (k, v) rest (trimStart_ne_nil k hkv.2.2.2.2.1)
    have hwf1 : ∀ x ∈ (trimStart k, v) :: rest, WellFormedPair x := by
      intro x hx
      rcases List.mem_cons.mp hx with he | hm
      · rw [he]; exact wellFormed_trimStart k v hkv
      · exact h x (List.mem_cons_of_mem _ hm)
    have hf1 : ∀ d, ((trimStart k, v) :: rest).foldl storePair d =
        ((k, v) :: rest).foldl storePair d := by
      intro d
      simp only [List.foldl_cons, storePair_trimStart]
    rcases List.eq_nil_or_concat ((trimStart k, v) :: rest) with he | ⟨init, last, he⟩
    · cases he
    · obtain ⟨kl, vl⟩ := last
      rw [List.concat_eq_append] at he
      rw [he] at hwf1 hf1 h1
      have hl : WellFormedPair (kl, vl) := hwf1 (kl, vl) (by simp)
      refine ⟨init ++ [(kl, trimEnd vl)], ?_, by simp, ?_, ?_⟩
      · rw [trim, h1]
        exact trimEnd_payload init (kl, vl) (trimEnd_ne_nil vl hl.2.2.2.2.2)
      · intro x hx
        rcases List.mem_append.mp hx with hm | hm
        · exact hwf1 x (List.mem_append_left _ hm)
        · simp only [List.mem_singleton] at hm
          rw [hm]
          exact wellFormed_trimEnd kl vl hl
      · intro d
        rw [← hf1 d]
        simp only [List.foldl_append, List.foldl_cons, List.foldl_nil, storePair_trimEnd]

/-- A DATA line made of well-formed pairs applies the pairs in order: the key
`id` names the device, every other key is assigned in the sensor data. -/
theorem processMessage_wellformed_data_line (r : Registry) (deviceId : Str) (device : Device)
    (segs : List (Str × Str)) (hdev : getDevice r deviceId = some device)
    (hne : segs ≠ []) (h : ∀ kv ∈ segs, WellFormedPair kv) :
    getDevice (processMessage r deviceId ("DATA:".toList ++ payload segs)) deviceId =
      some (segs.foldl storePair device) := by
  rw [processMessage_data r deviceId _ device hdev]
  obtain ⟨segs2, ht, hne2, hwf2, hf2⟩ := trim_payload segs hne h
  rw [ht, foldl_applyPart_payload segs2 device hne2 hwf2, hf2 device]
  exact getDevice_setDevice_same r deviceId device _ hdev

theorem foldl_storePair_fields (segs : List (Str × Str)) (device : Device)
    (hproto : ∀ kv ∈ segs, trim kv.1 ≠ "__proto__".toList) :
    (segs.foldl storePair device).data =
      (segs.filter (fun kv => decide (trim kv.1 ≠ "id".toList))).foldl
        (fun o kv => upsert o (trim kv.1) (trim kv.2)) device.data ∧
    (segs.foldl storePair device).customId =
      (match (segs.filter (fun kv => decide (trim kv.1 = "id".toList))).getLast? with
       | some kv => some (trim kv.2)
       | none => device.customId) ∧
    (segs.foldl storePair device).lastResponse = device.lastResponse ∧
    (segs.foldl storePair device).connected = device.connected ∧
    (segs.foldl storePair device).lastSeen = device.lastSeen ∧
    (segs.foldl storePair device).writeChar = device.writeChar ∧
    (segs.foldl storePair device).notifyChar = device.notifyChar := by
  induction segs using List.reverseRecOn with
  | nil => simp
  | append_singleton init kv ih =>
    have ih1 := ih (fun x hx => hproto x (List.mem_append_left _ hx))
    obtain ⟨i1, i2, i3, i4, i5, i6, i7⟩ := ih1
    have hp : trim kv.1 ≠ "__proto__".toList := hproto kv (by simp)
    simp only [List.foldl_append, List.foldl_cons, List.foldl_nil, List.filter_append]
    by_cases hid : trim kv.1 = "id".toList
    · simp only [storePair, if_pos hid, List.filter_cons, List.filter_nil, hid, ne_eq,
        not_true_eq_false, decide_False, decide_True, if_true, Bool.false_eq_true, if_false,
        List.append_nil, List.getLast?_append, List.getLast?_singleton]
      exact ⟨i1, rfl, i3, i4, i5, i6, i7⟩
    · simp only [storePair, if_neg hid, List.filter_cons, List.filter_nil, hid, ne_eq,
        not_false_eq_true, decide_True, decide_False, if_true, Bool.false_eq_true, if_false,
        List.append_nil, List.foldl_append, List.foldl_cons, List.foldl_nil, setProp,
        if_neg hp]
      exact ⟨by rw [i1], i2, i3, i4, i5, i6, i7⟩

/-- The content of C3 for every key other than `__proto__`: a line
`DATA:k1:v1,...,kn:vn` of well-formed pairs leaves the sensor data equal to the
old one upserted, in order, with `trim(k) -> trim(v)` for the pairs whose
trimmed key is not `id`, sets `customId` to the trimmed value of the last pair
whose trimmed key is `id` (or leaves it), and changes no other field. -/
theorem wellformed_data_line_effect (r : Registry) (deviceId : Str) (device : Device)
    (segs : List (Str × Str)) (hdev : getDevice r deviceId = some device)
    (hne : segs ≠ []) (h : ∀ kv ∈ segs, WellFormedPair kv)
    (hproto : ∀ kv ∈ segs, trim kv.1 ≠ "__proto__".toList) :
    ∃ d1, getDevice (processMessage r deviceId ("DATA:".toList ++ payload segs)) deviceId =
        some d1 ∧
      d1.data =
        (segs.filter (fun kv => decide (trim kv.1 ≠ "id".toList))).foldl
          (fun o kv => upsert o (trim kv.1) (trim kv.2)) device.data ∧
      d1.customId =
        (match (segs.filter (fun kv => decide (trim kv.1 = "id".toList))).getLast? with
         | some kv => some (trim kv.2)
         | none => device.customId) :=
  ⟨segs.foldl storePair device,
    processMessage_wellformed_data_line r deviceId device segs hdev hne h,
    (foldl_storePair_fields segs device hproto).1,
    (foldl_storePair_fields segs device hproto).2.1⟩

/-- The two sample lines of the specification evaluate as it says. -/
theorem data_line_examples :
    processMessage sampleRegistry "m1".toList "DATA:temp:21,light:300".toList =
      [("m1".toList, { sampleDevice with
          data := [("temp".toList, "21".toList), ("light".toList, "300".toList)] })] ∧
    processMessage sampleRegistry "m1".toList "DATA:id:deviceA,hum:55".toList =
      [("m1".toList, { sampleDevice with
          customId := some "deviceA".toList
          data := [("hum".toList, "55".toList)] })] := by
  constructor <;> decide

/-- C3, evaluated on the key `__proto__`, where the code misses what the claim
says: the segment is well-formed, but the assignment
`device.data['__proto__'] = '1'` creates no property, so `sensorData` stays
empty instead of becoming `{__proto__: "1"}`. -/
theorem proto_key_is_not_stored :
    processMessage sampleRegistry "m1".toList "DATA:__proto__:1".toList = sampleRegistry ∧
    (getDevice (processMessage sampleRegistry "m1".toList "DATA:__proto__:1".toList)
        "m1".toList).map (fun d => d.data) ≠
      some (upsert sampleDevice.data "__proto__".toList "1".toList) := by
  constructor <;> decide

end MicrobitBle
